import Mathlib

/-!
Verification development for the block-processing core of
`TheTexasFarmer/nearcore` (`chain/chain/src/chain.rs`).

The Rust source is shallowly embedded: `HashMap`s become association
lists, `Instant`s become natural-number timestamps with an explicit
`now` parameter, fallible operations return `Except ErrorKind`, and the
staged-write `ChainStoreUpdate` (whose implementation lives in
`store.rs`, outside the provided sources) is modelled from the spec as a
write buffer with an atomic `commit`.
-/

set_option autoImplicit false
set_option maxRecDepth 1000000
set_option maxHeartbeats 2000000

namespace NearChain

/-! ## Association-list primitives (model of `std::collections::HashMap`) -/

variable {α : Type} {β : Type}

/-- First-match lookup in an association list (model of `HashMap::get`). -/
def alookup [DecidableEq α] (k : α) : List (α × β) → Option β
  | [] => none
  | (k', v) :: rest => if k' = k then some v else alookup k rest

/-- Insert-or-replace (model of `HashMap::insert`; order of entries is
irrelevant to every use below). -/
def ainsert [DecidableEq α] (k : α) (v : β) (l : List (α × β)) : List (α × β) :=
  l.filter (fun p => p.1 ≠ k) ++ [(k, v)]

/-- Remove a key (model of `HashMap::remove`'s effect on the map). -/
def aremove [DecidableEq α] (k : α) (l : List (α × β)) : List (α × β) :=
  l.filter (fun p => p.1 ≠ k)

/-- The keys of an association list. -/
def keysOf (l : List (α × β)) : List α := l.map Prod.fst

/-- Append a hash to the bucket of a height, creating the bucket when absent
(model of `height_idx.entry(height).or_insert(vec![]).push(hash)`). -/
def pushToBucket [DecidableEq α] (h : α) (x : β) : List (α × List β) → List (α × List β)
  | [] => [(h, [x])]
  | (h', xs) :: rest =>
      if h' = h then (h', xs ++ [x]) :: rest else (h', xs) :: pushToBucket h x rest

/-- Insert into a descending-sorted list of heights. -/
def insertDesc (x : Nat) : List Nat → List Nat
  | [] => [x]
  | y :: ys => if y ≤ x then x :: y :: ys else y :: insertDesc x ys

/-- Sort heights in descending order (model of `sort_unstable()` followed by
reverse iteration; the source sorts ascending and walks `.rev()`). -/
def sortDesc (l : List Nat) : List Nat := l.foldr insertDesc []

/-! ## Core data model -/

/-- Content hashes are embedded as naturals; `CryptoHash::default()` is `0`. -/
abbrev Hash := Nat

/-- Injective combination used to derive content hashes of structured data
(never `0`, so it cannot collide with `CryptoHash::default()`). -/
def hmix (a b : Nat) : Nat := Nat.pair a b + 1

abbrev AccountId := Nat

/-- The block-header fields `chain.rs` reads (height, previous hash, previous
state root, timestamp, total accumulated weight). -/
structure BlockHeader where
  height : Nat
  prev_hash : Hash
  prev_state_root : Hash
  timestamp : Nat
  total_weight : Nat
deriving DecidableEq

/-- Content hash of a header (headers are content-addressed in the source). -/
def BlockHeader.hash (h : BlockHeader) : Hash :=
  hmix h.height (hmix h.prev_hash (hmix h.prev_state_root (hmix h.timestamp h.total_weight)))

/-- The chunk-header fields `chain.rs` reads. -/
structure ShardChunkHeader where
  height_included : Nat
  prev_block_hash : Hash
  prev_state_root : Hash
deriving DecidableEq

/-- Content hash of a chunk header. -/
def ShardChunkHeader.chunk_hash (c : ShardChunkHeader) : Hash :=
  hmix c.height_included (hmix c.prev_block_hash (hmix c.prev_state_root 0))

/-- A cross-shard receipt: the fields `chain.rs` reads are the receiver (for
shard routing) and the content hash (for result keys). -/
structure Receipt where
  receiver : AccountId
  nonce : Nat
deriving DecidableEq

def Receipt.get_hash (r : Receipt) : Hash := hmix r.receiver (hmix r.nonce 1)

/-- A full chunk: header plus transactions and outgoing receipts. -/
structure ShardChunk where
  header : ShardChunkHeader
  transactions : List Nat
  receipts : List Receipt
deriving DecidableEq

/-- A full block: header, per-shard chunk headers, transactions. -/
structure Block where
  header : BlockHeader
  chunks : List ShardChunkHeader
  transactions : List Nat
deriving DecidableEq

/-- `Block::hash()` is the hash of the header. -/
def Block.hash (b : Block) : Hash := b.header.hash

/-- Modelled from the spec: `Block::compute_state_root` lives in `types.rs`
(not under the provided sources). Per §3/§4.D.4 it is the merkle root of the
chunk headers' state roots in shard order; any deterministic combination
serves the embedding, which only compares it for equality. -/
def Block.compute_state_root (chunks : List ShardChunkHeader) : Hash :=
  chunks.foldl (fun acc c => hmix acc c.prev_state_root) 0

/-- Modelled from the spec (§3): a `Tip` is
(height, last block hash, previous block hash, total weight); `Tip` itself is
defined in `types.rs`, outside the provided sources. -/
structure Tip where
  height : Nat
  last_block_hash : Hash
  prev_block_hash : Hash
  total_weight : Nat
deriving DecidableEq

/-- Modelled from the spec (§3, §4.E.i): `Tip::from_header` builds the tip
pointing at a header. -/
def Tip.from_header (h : BlockHeader) : Tip :=
  { height := h.height
    last_block_hash := h.hash
    prev_block_hash := h.prev_hash
    total_weight := h.total_weight }

/-- Origin tag of an incoming block. -/
inductive Provenance where
  | NONE | PRODUCED | SYNC
deriving DecidableEq

/-- Status handed to the acceptance callback. -/
inductive BlockStatus where
  | Next
  | Fork
  | Reorg (prev_head : Hash)
deriving DecidableEq

/-- The error kinds of `error.rs` that `chain.rs` produces or inspects. -/
inductive ErrorKind where
  | Orphan
  | ChunksMissing (missing : List ShardChunkHeader)
  | Unfit (msg : String)
  | OldBlock
  | InvalidBlockFutureTime (t : Nat)
  | InvalidBlockPastTime (prev t : Nat)
  | InvalidBlockWeight
  | InvalidStateRoot
  | InvalidChunk
  | IncorrectNumberOfChunkHeaders
  | DBNotFoundErr (what : String)
  | Other (msg : String)
deriving DecidableEq

/-- Model of `format!("\x7b:?\x7d", e)` used when `process_block_single`
wraps unhandled error kinds into `ErrorKind::Other`. -/
def errorDebug : ErrorKind → String
  | ErrorKind.Orphan => "Orphan"
  | ErrorKind.ChunksMissing _ => "ChunksMissing"
  | ErrorKind.Unfit m => "Unfit: " ++ m
  | ErrorKind.OldBlock => "OldBlock"
  | ErrorKind.InvalidBlockFutureTime _ => "InvalidBlockFutureTime"
  | ErrorKind.InvalidBlockPastTime _ _ => "InvalidBlockPastTime"
  | ErrorKind.InvalidBlockWeight => "InvalidBlockWeight"
  | ErrorKind.InvalidStateRoot => "InvalidStateRoot"
  | ErrorKind.InvalidChunk => "InvalidChunk"
  | ErrorKind.IncorrectNumberOfChunkHeaders => "IncorrectNumberOfChunkHeaders"
  | ErrorKind.DBNotFoundErr w => "DBNotFound: " ++ w
  | ErrorKind.Other m => "Other: " ++ m

/-- `pub const MAX_ORPHAN_SIZE: usize = 1024`. -/
def MAX_ORPHAN_SIZE : Nat := 1024

/-- `const MAX_ORPHAN_AGE_SECS: u64 = 300`. -/
def MAX_ORPHAN_AGE_SECS : Nat := 300

/-- `const ACCEPTABLE_TIME_DIFFERENCE: i64 = 12 * 10` (seconds). -/
def ACCEPTABLE_TIME_DIFFERENCE : Nat := 12 * 10

/-- Wrapping `u64` subtraction, as performed by a release build at
`head.height - 50` in `check_known_store`. -/
def u64_sub (a b : Nat) : Nat := (a % 2 ^ 64 + (2 ^ 64 - b % 2 ^ 64)) % 2 ^ 64

/-! ## Orphan pool (`OrphanBlockPool`) -/

/-- An orphan: block, provenance tag, arrival instant (`added` is the arrival
time in seconds; the source stores an `Instant` and compares `elapsed()`). -/
structure Orphan where
  block : Block
  provenance : Provenance
  added : Nat
deriving DecidableEq

structure OrphanBlockPool where
  orphans : List (Hash × Orphan)
  height_idx : List (Nat × List Hash)
  evicted : Nat
deriving DecidableEq

def OrphanBlockPool.new : OrphanBlockPool :=
  { orphans := [], height_idx := [], evicted := 0 }

def OrphanBlockPool.len (p : OrphanBlockPool) : Nat := p.orphans.length

def OrphanBlockPool.len_evicted (p : OrphanBlockPool) : Nat := p.evicted

/-- The bucket-dropping loop inside `OrphanBlockPool::add`: walk heights in
descending order, removing each height's bucket (and its orphans) and
recording the removed hashes, until the map is under `MAX_ORPHAN_SIZE`.
The under-cap test runs after each height, exactly as in the source
(also when the height had no bucket). -/
def evictLoop :
    List Nat → List (Hash × Orphan) → List (Nat × List Hash) → List Hash →
    List (Hash × Orphan) × List (Nat × List Hash) × List Hash
  | [], orphans, height_idx, removed => (orphans, height_idx, removed)
  | h :: rest, orphans, height_idx, removed =>
      let next :=
        match alookup h height_idx with
        | some bucket =>
            (bucket.foldl (fun os x => aremove x os) orphans,
             aremove h height_idx, removed ++ bucket)
        | none => (orphans, height_idx, removed)
      if next.1.length < MAX_ORPHAN_SIZE then next
      else evictLoop rest next.1 next.2.1 next.2.2

/-- `OrphanBlockPool::add`: insert by hash and into the height index; when the
map exceeds `MAX_ORPHAN_SIZE`, retain only entries younger than
`MAX_ORPHAN_AGE_SECS`, then drop height buckets from the highest height down
(checking the cap after each height), and finally prune index buckets whose
hashes were all removed by the bucket loop. -/
def OrphanBlockPool.add (p : OrphanBlockPool) (orphan : Orphan) (now : Nat) :
    OrphanBlockPool :=
  let height_idx := pushToBucket orphan.block.header.height orphan.block.hash p.height_idx
  let orphans := ainsert orphan.block.hash orphan p.orphans
  if orphans.length > MAX_ORPHAN_SIZE then
    let old_len := orphans.length
    let orphans := orphans.filter (fun kv => now - kv.2.added < MAX_ORPHAN_AGE_SECS)
    let heights := sortDesc (keysOf height_idx)
    let res := evictLoop heights orphans height_idx []
    let height_idx :=
      res.2.1.filter (fun kv => kv.2.any (fun x => ¬ res.2.2.contains x))
    { orphans := res.1
      height_idx := height_idx
      evicted := p.evicted + (old_len - res.1.length) }
  else
    { orphans := orphans, height_idx := height_idx, evicted := p.evicted }

def OrphanBlockPool.contains (p : OrphanBlockPool) (h : Hash) : Bool :=
  (alookup h p.orphans).isSome

/-- `OrphanBlockPool::remove_by_height`: remove and return the bucket at a
height, removing each of its orphans from the by-hash map in bucket order. -/
def OrphanBlockPool.remove_by_height (p : OrphanBlockPool) (height : Nat) :
    Option (List Orphan) × OrphanBlockPool :=
  match alookup height p.height_idx with
  | none => (none, p)
  | some hs =>
      let step := hs.foldl
        (fun (acc : List Orphan × List (Hash × Orphan)) h =>
          match alookup h acc.2 with
          | some o => (acc.1 ++ [o], aremove h acc.2)
          | none => acc)
        ([], p.orphans)
      (some step.1,
       { orphans := step.2, height_idx := aremove height p.height_idx,
         evicted := p.evicted })

def OrphanBlockPool.all_heights (p : OrphanBlockPool) : List Nat :=
  keysOf p.height_idx

/-! ## Chain store and staged update

`ChainStore` / `ChainStoreUpdate` are implemented in `store.rs`, which is not
under the provided sources; both are modelled from the spec (§4.B, §4.C):
typed keyed reads, a write buffer whose reads fall through to the store, and
an atomic `commit`. -/

/-- Modelled from the spec (§4.B): the persistent chain store, with the keyed
records `chain.rs` reads and writes. -/
structure ChainStore where
  blocks : List (Hash × Block)
  headers : List (Hash × BlockHeader)
  chunks : List (Hash × ShardChunk)
  head : Option Tip
  header_head : Option Tip
  sync_head : Option Tip
  post_state_roots : List (Hash × Hash)
  incoming_receipts : List ((Hash × Nat) × List Receipt)
  outgoing_receipts : List ((Hash × Nat) × List Receipt)
  transaction_results : List (Hash × Nat)
  trie_changes : List Nat
deriving DecidableEq

/-- `ChainStore::head()` — a typed NotFound error when absent. -/
def ChainStore.headE (s : ChainStore) : Except ErrorKind Tip :=
  match s.head with
  | some t => Except.ok t
  | none => Except.error (ErrorKind.DBNotFoundErr "HEAD")

/-- Modelled from the spec (§4.C): a scoped write set over the store.
Buffered writes; reads consult the buffer, then the store. -/
structure ChainStoreUpdate where
  base : ChainStore
  blocks : List (Hash × Block)
  headers : List (Hash × BlockHeader)
  head : Option Tip
  header_head : Option Tip
  sync_head : Option Tip
  post_state_roots : List (Hash × Hash)
  incoming_receipts : List ((Hash × Nat) × List Receipt)
  outgoing_receipts : List ((Hash × Nat) × List Receipt)
  transaction_results : List (Hash × Nat)
  trie_changes : List Nat
deriving DecidableEq

def ChainStoreUpdate.new (s : ChainStore) : ChainStoreUpdate :=
  { base := s, blocks := [], headers := [], head := none, header_head := none,
    sync_head := none, post_state_roots := [], incoming_receipts := [],
    outgoing_receipts := [], transaction_results := [], trie_changes := [] }

def ChainStoreUpdate.getHead (u : ChainStoreUpdate) : Except ErrorKind Tip :=
  match u.head with
  | some t => Except.ok t
  | none => u.base.headE

def ChainStoreUpdate.getHeaderHead (u : ChainStoreUpdate) : Except ErrorKind Tip :=
  match u.header_head with
  | some t => Except.ok t
  | none =>
      match u.base.header_head with
      | some t => Except.ok t
      | none => Except.error (ErrorKind.DBNotFoundErr "HEADER_HEAD")

def ChainStoreUpdate.getBlock (u : ChainStoreUpdate) (h : Hash) :
    Except ErrorKind Block :=
  match alookup h u.blocks with
  | some b => Except.ok b
  | none =>
      match alookup h u.base.blocks with
      | some b => Except.ok b
      | none => Except.error (ErrorKind.DBNotFoundErr "BLOCK")

def ChainStoreUpdate.getBlockHeader (u : ChainStoreUpdate) (h : Hash) :
    Except ErrorKind BlockHeader :=
  match alookup h u.headers with
  | some hd => Except.ok hd
  | none =>
      match alookup h u.base.headers with
      | some hd => Except.ok hd
      | none => Except.error (ErrorKind.DBNotFoundErr "BLOCK HEADER")

def ChainStoreUpdate.blockExists (u : ChainStoreUpdate) (h : Hash) : Bool :=
  (alookup h u.blocks).isSome || (alookup h u.base.blocks).isSome

def ChainStoreUpdate.getChunkOpt (u : ChainStoreUpdate) (ch : ShardChunkHeader) :
    Option ShardChunk :=
  alookup ch.chunk_hash u.base.chunks

def ChainStoreUpdate.getChunk (u : ChainStoreUpdate) (ch : ShardChunkHeader) :
    Except ErrorKind ShardChunk :=
  match u.getChunkOpt ch with
  | some c => Except.ok c
  | none => Except.error (ErrorKind.DBNotFoundErr "CHUNK")

def ChainStoreUpdate.saveBlock (u : ChainStoreUpdate) (b : Block) : ChainStoreUpdate :=
  { u with blocks := ainsert b.hash b u.blocks }

def ChainStoreUpdate.saveBlockHeader (u : ChainStoreUpdate) (h : BlockHeader) :
    ChainStoreUpdate :=
  { u with headers := ainsert h.hash h u.headers }

def ChainStoreUpdate.saveBodyHead (u : ChainStoreUpdate) (t : Tip) : ChainStoreUpdate :=
  { u with head := some t }

def ChainStoreUpdate.saveHeaderHead (u : ChainStoreUpdate) (t : Tip) : ChainStoreUpdate :=
  { u with header_head := some t }

def ChainStoreUpdate.saveSyncHead (u : ChainStoreUpdate) (t : Tip) : ChainStoreUpdate :=
  { u with sync_head := some t }

def ChainStoreUpdate.savePostStateRoot (u : ChainStoreUpdate) (ch : Hash) (r : Hash) :
    ChainStoreUpdate :=
  { u with post_state_roots := ainsert ch r u.post_state_roots }

def ChainStoreUpdate.saveIncomingReceipt (u : ChainStoreUpdate) (bh : Hash)
    (shard : Nat) (rs : List Receipt) : ChainStoreUpdate :=
  { u with incoming_receipts := ainsert (bh, shard) rs u.incoming_receipts }

def ChainStoreUpdate.saveOutgoingReceipt (u : ChainStoreUpdate) (bh : Hash)
    (shard : Nat) (rs : List Receipt) : ChainStoreUpdate :=
  { u with outgoing_receipts := ainsert (bh, shard) rs u.outgoing_receipts }

def ChainStoreUpdate.saveTransactionResult (u : ChainStoreUpdate) (h : Hash)
    (res : Nat) : ChainStoreUpdate :=
  { u with transaction_results := ainsert h res u.transaction_results }

def ChainStoreUpdate.saveTrieChanges (u : ChainStoreUpdate) (tc : Nat) :
    ChainStoreUpdate :=
  { u with trie_changes := u.trie_changes ++ [tc] }

/-- Modelled from the spec (§4.D.7): incoming receipts for a shard at a block
(`ChainStoreUpdate::get_incoming_receipts_for_shard` lives in `store.rs`). -/
def ChainStoreUpdate.getIncomingReceiptsForShard (u : ChainStoreUpdate)
    (shard : Nat) (bh : Hash) : Except ErrorKind (List Receipt) :=
  match alookup (bh, shard) u.incoming_receipts with
  | some rs => Except.ok rs
  | none =>
      match alookup (bh, shard) u.base.incoming_receipts with
      | some rs => Except.ok rs
      | none => Except.ok []

/-- Modelled from the spec (§4.C): `commit()` persists all buffered writes as
one unit; a dropped update leaves the store untouched. -/
def ChainStoreUpdate.commit (u : ChainStoreUpdate) : ChainStore :=
  { blocks := u.blocks.foldl (fun m kv => ainsert kv.1 kv.2 m) u.base.blocks
    headers := u.headers.foldl (fun m kv => ainsert kv.1 kv.2 m) u.base.headers
    chunks := u.base.chunks
    head := match u.head with | some t => some t | none => u.base.head
    header_head := match u.header_head with | some t => some t | none => u.base.header_head
    sync_head := match u.sync_head with | some t => some t | none => u.base.sync_head
    post_state_roots :=
      u.post_state_roots.foldl (fun m kv => ainsert kv.1 kv.2 m) u.base.post_state_roots
    incoming_receipts :=
      u.incoming_receipts.foldl (fun m kv => ainsert kv.1 kv.2 m) u.base.incoming_receipts
    outgoing_receipts :=
      u.outgoing_receipts.foldl (fun m kv => ainsert kv.1 kv.2 m) u.base.outgoing_receipts
    transaction_results :=
      u.transaction_results.foldl (fun m kv => ainsert kv.1 kv.2 m) u.base.transaction_results
    trie_changes := u.base.trie_changes ++ u.trie_changes }

/-! ## Runtime adapter (external collaborator, §6) -/

/-- Result of `RuntimeAdapter::apply_transactions`. -/
structure ApplyResult where
  trie_changes : Nat
  state_root : Hash
  tx_results : List Nat
  new_receipts : List (Nat × List Receipt)
  validator_proposals : List Nat

/-- The runtime capability `chain.rs` consumes (§6); behaviour is a parameter
of the embedding. -/
structure RuntimeAdapter where
  num_shards : Nat
  account_id_to_shard_id : AccountId → Nat
  cares_about_shard : AccountId → Hash → Nat → Bool
  compute_block_weight : BlockHeader → BlockHeader → Except ErrorKind Nat
  apply_transactions :
    Nat → Hash → Nat → Hash → List Receipt → List Nat → Except String ApplyResult
  add_validator_proposals : Hash → Hash → Nat → List Nat → Except String Unit

/-- `ShardFullChunkOrOnePart` (from `types.rs`, modelled from the spec §4.D.6):
a full chunk body, a one-part proof, or no chunk for this shard. -/
inductive ShardFullChunkOrOnePart where
  | FullChunk (chunk : ShardChunk)
  | OnePart (receipts : List Receipt)
  | NoChunk

/-! ## ChainUpdate — the single-block transaction -/

/-- `ChainUpdate::check_known_head`: fast-reject a block whose hash is the
head's last or previous hash. -/
def ChainUpdate.check_known_head (u : ChainStoreUpdate) (header : BlockHeader) :
    Except ErrorKind Unit :=
  match u.getHead with
  | Except.error e => Except.error e
  | Except.ok head =>
      let bh := header.hash
      if bh = head.last_block_hash ∨ bh = head.prev_block_hash then
        Except.error (ErrorKind.Unfit "already known in head")
      else Except.ok ()

/-- `ChainUpdate::check_known_orphans`: reject blocks sitting in either pool. -/
def ChainUpdate.check_known_orphans (orphans blocks_with_missing_chunks : OrphanBlockPool)
    (header : BlockHeader) : Except ErrorKind Unit :=
  if orphans.contains header.hash then
    Except.error (ErrorKind.Unfit "already known in orphans")
  else if blocks_with_missing_chunks.contains header.hash then
    Except.error (ErrorKind.Unfit "already known in blocks with missing chunks")
  else Except.ok ()

/-- `ChainUpdate::check_known_store`: reject blocks already in the store; a
stored block with `height > 50 && height < head.height - 50` (wrapping `u64`
subtraction) is flagged `OldBlock` instead of `Unfit`. -/
def ChainUpdate.check_known_store (u : ChainStoreUpdate) (header : BlockHeader) :
    Except ErrorKind Unit :=
  match u.blockExists header.hash with
  | true =>
      match u.getHead with
      | Except.error e => Except.error e
      | Except.ok head =>
          if header.height > 50 ∧ header.height < u64_sub head.height 50 then
            Except.error ErrorKind.OldBlock
          else
            Except.error (ErrorKind.Unfit "already known in store")
  | false => Except.ok ()

/-- `ChainUpdate::check_known`: head, orphan pools, then store. -/
def ChainUpdate.check_known (u : ChainStoreUpdate)
    (orphans blocks_with_missing_chunks : OrphanBlockPool) (block : Block) :
    Except ErrorKind Unit :=
  match ChainUpdate.check_known_head u block.header with
  | Except.error e => Except.error e
  | Except.ok _ =>
      match ChainUpdate.check_known_orphans orphans blocks_with_missing_chunks block.header with
      | Except.error e => Except.error e
      | Except.ok _ => ChainUpdate.check_known_store u block.header

/-- `ChainUpdate::get_previous_header`: previous header, with `DBNotFoundErr`
translated to `Orphan`. -/
def ChainUpdate.get_previous_header (u : ChainStoreUpdate) (header : BlockHeader) :
    Except ErrorKind BlockHeader :=
  match u.getBlockHeader header.prev_hash with
  | Except.ok h => Except.ok h
  | Except.error (ErrorKind.DBNotFoundErr _) => Except.error ErrorKind.Orphan
  | Except.error e => Except.error e

/-- `ChainUpdate::validate_header`: future-time guard, strict timestamp
progression over the previous header, and (for non-produced blocks) the
runtime's total-weight check. -/
def ChainUpdate.validate_header (rt : RuntimeAdapter) (u : ChainStoreUpdate)
    (header : BlockHeader) (provenance : Provenance) (now : Nat) :
    Except ErrorKind Unit :=
  if header.timestamp > now + ACCEPTABLE_TIME_DIFFERENCE then
    Except.error (ErrorKind.InvalidBlockFutureTime header.timestamp)
  else
    match ChainUpdate.get_previous_header u header with
    | Except.error e => Except.error e
    | Except.ok prev_header =>
        if header.timestamp ≤ prev_header.timestamp then
          Except.error (ErrorKind.InvalidBlockPastTime prev_header.timestamp header.timestamp)
        else if provenance ≠ Provenance.PRODUCED then
          match rt.compute_block_weight prev_header header with
          | Except.error e => Except.error e
          | Except.ok weight =>
              if weight ≠ header.total_weight then
                Except.error ErrorKind.InvalidBlockWeight
              else Except.ok ()
        else Except.ok ()

/-- `ChainUpdate::update_header_head`: overwrite the header head when the
header's total weight dominates. -/
def ChainUpdate.update_header_head (u : ChainStoreUpdate) (header : BlockHeader) :
    Except ErrorKind (Option Tip × ChainStoreUpdate) :=
  match u.getHeaderHead with
  | Except.error e => Except.error e
  | Except.ok header_head =>
      if header.total_weight > header_head.total_weight then
        let tip := Tip.from_header header
        Except.ok (some tip, u.saveHeaderHead tip)
      else Except.ok (none, u)

/-- `ChainUpdate::process_header_for_block`: validate the header, stage it,
and update the header head. -/
def ChainUpdate.process_header_for_block (rt : RuntimeAdapter) (u : ChainStoreUpdate)
    (header : BlockHeader) (provenance : Provenance) (now : Nat) :
    Except ErrorKind ChainStoreUpdate :=
  match ChainUpdate.validate_header rt u header provenance now with
  | Except.error e => Except.error e
  | Except.ok _ =>
      let u := u.saveBlockHeader header
      match ChainUpdate.update_header_head u header with
      | Except.error e => Except.error e
      | Except.ok (_, u) => Except.ok u

/-- Modelled from the spec (§4.D.6, §7):
`ChainStoreUpdate::get_chunks_or_one_parts` lives in `store.rs` (not under the
provided sources). For each chunk header delivered with the block it yields
the full chunk body when stored, and no chunk for a non-fresh header; fresh
headers whose bodies are missing accumulate into `ChunksMissing`. -/
def ChainUpdate.get_chunks_or_one_parts (u : ChainStoreUpdate) (height : Nat)
    (chunks : List ShardChunkHeader) :
    Except ErrorKind (List ShardFullChunkOrOnePart) :=
  let missing := chunks.filter
    (fun ch => ch.height_included = height ∧ (u.getChunkOpt ch).isNone)
  if missing.isEmpty then
    Except.ok (chunks.map (fun ch =>
      if ch.height_included = height then
        match u.getChunkOpt ch with
        | some c => ShardFullChunkOrOnePart.FullChunk c
        | none => ShardFullChunkOrOnePart.NoChunk
      else ShardFullChunkOrOnePart.NoChunk))
  else Except.error (ErrorKind.ChunksMissing missing)

/-- `ChainUpdate::save_incoming_receipts_from_block`: collect the receipts of
all chunks (or one-part proofs) delivered with the block, group them by the
receiver's shard, and stage the per-shard incoming-receipt lists under this
block's hash. -/
def ChainUpdate.save_incoming_receipts_from_block (rt : RuntimeAdapter)
    (u : ChainStoreUpdate) (block : Block) :
    Except ErrorKind ChainStoreUpdate :=
  match ChainUpdate.get_chunks_or_one_parts u block.header.height block.chunks with
  | Except.error e => Except.error e
  | Except.ok all_chunks_or_oneparts =>
      let all_receipts := (all_chunks_or_oneparts.map (fun c =>
        match c with
        | ShardFullChunkOrOnePart.FullChunk chunk => chunk.receipts
        | ShardFullChunkOrOnePart.OnePart receipts => receipts
        | ShardFullChunkOrOnePart.NoChunk => [])).flatten
      let receipts_by_shard_id := all_receipts.foldl
        (fun (m : List (Nat × List Receipt)) r =>
          let shard_id := rt.account_id_to_shard_id r.receiver
          match alookup shard_id m with
          | some rs => ainsert shard_id (rs ++ [r]) m
          | none => ainsert shard_id [r] m)
        []
      Except.ok (receipts_by_shard_id.foldl
        (fun u kv => u.saveIncomingReceipt block.hash kv.1 kv.2) u)

/-- The body of the per-shard loop in `ChainUpdate::process_block`: for each
chunk header paired with the previous block's chunk header, a fresh chunk
(`height_included == block.height`) must build on `block.prev_hash` and, when
this node cares about the shard, is executed through the runtime with its
receipts; a non-fresh chunk header must equal the previous block's. -/
def ChainUpdate.process_chunks (rt : RuntimeAdapter) (me : Option AccountId)
    (block : Block) : Nat → List (ShardChunkHeader × ShardChunkHeader) →
    ChainStoreUpdate → Except ErrorKind ChainStoreUpdate
  | _, [], u => Except.ok u
  | shard_id, (chunk_header, prev_chunk_header) :: rest, u =>
      if chunk_header.height_included = block.header.height then
        if chunk_header.prev_block_hash ≠ block.header.prev_hash then
          Except.error ErrorKind.InvalidChunk
        else
          let chunk_hash := chunk_header.chunk_hash
          if (match me with
              | some m => rt.cares_about_shard m block.header.prev_hash shard_id
              | none => false) then
            match u.getIncomingReceiptsForShard shard_id block.hash with
            | Except.error e => Except.error e
            | Except.ok receipts =>
                match u.getChunk chunk_header with
                | Except.error e => Except.error e
                | Except.ok chunk =>
                    let receipt_hashes := receipts.map Receipt.get_hash
                    let transaction_hashes := chunk.transactions.map (fun t => hmix t 2)
                    match rt.apply_transactions shard_id chunk.header.prev_state_root
                        chunk_header.height_included chunk_header.prev_block_hash
                        receipts chunk.transactions with
                    | Except.error e => Except.error (ErrorKind.Other e)
                    | Except.ok applied =>
                        match rt.add_validator_proposals block.header.prev_hash
                            block.hash block.header.height applied.validator_proposals with
                        | Except.error e => Except.error (ErrorKind.Other e)
                        | Except.ok _ =>
                            let u := u.saveTrieChanges applied.trie_changes
                            let u := u.savePostStateRoot chunk_hash applied.state_root
                            let u := applied.new_receipts.foldl
                              (fun u kv => u.saveOutgoingReceipt block.hash shard_id kv.2) u
                            let u := (applied.tx_results.enum.foldl
                              (fun u ir =>
                                u.saveTransactionResult
                                  ((receipt_hashes ++ transaction_hashes).getD ir.1 0) ir.2)
                              u)
                            ChainUpdate.process_chunks rt me block (shard_id + 1) rest u
          else ChainUpdate.process_chunks rt me block (shard_id + 1) rest u
      else
        if prev_chunk_header ≠ chunk_header then Except.error ErrorKind.InvalidChunk
        else ChainUpdate.process_chunks rt me block (shard_id + 1) rest u

/-- `ChainUpdate::update_head`: save a new body head and return the new tip
exactly when the block's total weight exceeds the current head's. -/
def ChainUpdate.update_head (u : ChainStoreUpdate) (block : Block) :
    Except ErrorKind (Option Tip × ChainStoreUpdate) :=
  match u.getHead with
  | Except.error e => Except.error e
  | Except.ok head =>
      if block.header.total_weight > head.total_weight then
        let tip := Tip.from_header block.header
        Except.ok (some tip, u.saveBodyHead tip)
      else Except.ok (none, u)

/-- `ChainUpdate::process_block`: duplicate rejection, parent lookup (orphan
detection), header validation and header-head update, state-root consistency,
unconditional block staging, receipt ingestion, per-shard runtime
application, and the body-head update. -/
def ChainUpdate.process_block (rt : RuntimeAdapter)
    (orphans blocks_with_missing_chunks : OrphanBlockPool) (me : Option AccountId)
    (block : Block) (provenance : Provenance) (now : Nat) (u : ChainStoreUpdate) :
    Except ErrorKind (Option Tip × ChainStoreUpdate) :=
  match ChainUpdate.check_known u orphans blocks_with_missing_chunks block with
  | Except.error e => Except.error e
  | Except.ok _ =>
      match u.getHead with
      | Except.error e => Except.error e
      | Except.ok head =>
          let is_next := block.header.prev_hash = head.last_block_hash
          match ChainUpdate.get_previous_header u block.header with
          | Except.error e => Except.error e
          | Except.ok prev =>
              let prev_hash := prev.hash
              if ¬ is_next ∧ ¬ u.blockExists prev_hash then
                Except.error ErrorKind.Orphan
              else
                match ChainUpdate.process_header_for_block rt u block.header provenance now with
                | Except.error e => Except.error e
                | Except.ok u =>
                    let state_root := Block.compute_state_root block.chunks
                    if block.header.prev_state_root ≠ state_root then
                      Except.error ErrorKind.InvalidStateRoot
                    else
                      let u := u.saveBlock block
                      match u.getBlock prev_hash with
                      | Except.error e => Except.error e
                      | Except.ok prev_block =>
                          match ChainUpdate.save_incoming_receipts_from_block rt u block with
                          | Except.error e => Except.error e
                          | Except.ok u =>
                              match ChainUpdate.process_chunks rt me block 0
                                  (block.chunks.zip prev_block.chunks) u with
                              | Except.error e => Except.error e
                              | Except.ok u => ChainUpdate.update_head u block

/-! ## Chain facade -/

/-- State owned by the `Chain` facade: the persistent store and the two
orphan pools. -/
structure ChainState where
  store : ChainStore
  orphans : OrphanBlockPool
  blocks_with_missing_chunks : OrphanBlockPool
deriving DecidableEq

/-- Observer notifications: the `block_accepted` and `block_misses_chunks`
callbacks, recorded in invocation order. -/
inductive Event where
  | accepted (block : Block) (status : BlockStatus) (provenance : Provenance)
  | missesChunks (missing : List ShardChunkHeader)
deriving DecidableEq

/-- `Chain::determine_status`, mirroring the source's
`has_head`/`is_next_block`/`old_hash` computation (the `unwrap` on the reorg
path is modelled by `Option.getD`, and is reached only when `old_hash` is
`some`). -/
def Chain.determine_status (head : Option Tip) (prev_head : Tip) : BlockStatus :=
  let has_head := head.isSome
  let step : Bool × Option Hash :=
    match head with
    | some h =>
        if h.prev_block_hash = prev_head.last_block_hash then (true, none)
        else (false, some prev_head.last_block_hash)
    | none => (false, none)
  match has_head, step.1 with
  | true, true => BlockStatus.Next
  | true, false => BlockStatus.Reorg (step.2.getD 0)
  | false, _ => BlockStatus.Fork

/-- The spec's wording of status classification (§4.E.i), stated as its own
definition for comparison with `Chain.determine_status`: no new head means
`Fork`; a new head extending the prior head means `Next`; any other new head
means `Reorg` carrying the prior head's last block hash. -/
def statusSpec (head : Option Tip) (prev_head : Tip) : BlockStatus :=
  match head with
  | none => BlockStatus.Fork
  | some h =>
      if h.prev_block_hash = prev_head.last_block_hash then BlockStatus.Next
      else BlockStatus.Reorg prev_head.last_block_hash

/-- `Chain::process_block_single`: shard-count guard, read the prior head,
run the block through a fresh `ChainUpdate`, commit exactly on success and
fire `block_accepted`; on failure park orphans / chunk-missing blocks (firing
`block_misses_chunks`), pass `Unfit` through, and wrap any other error into
`Other`. -/
def Chain.process_block_single (rt : RuntimeAdapter) (me : Option AccountId)
    (block : Block) (provenance : Provenance) (now : Nat) (st : ChainState) :
    Except ErrorKind (Option Tip) × ChainState × List Event :=
  if block.chunks.length ≠ rt.num_shards then
    (Except.error ErrorKind.IncorrectNumberOfChunkHeaders, st, [])
  else
    match st.store.headE with
    | Except.error e => (Except.error e, st, [])
    | Except.ok prev_head =>
        match ChainUpdate.process_block rt st.orphans st.blocks_with_missing_chunks
            me block provenance now (ChainStoreUpdate.new st.store) with
        | Except.ok (head, u) =>
            let st := { st with store := u.commit }
            let status := Chain.determine_status head prev_head
            (Except.ok head, st, [Event.accepted block status provenance])
        | Except.error e =>
            match e with
            | ErrorKind.Orphan =>
                let orphan : Orphan :=
                  { block := block, provenance := provenance, added := now }
                (Except.error ErrorKind.Orphan,
                 { st with orphans := st.orphans.add orphan now }, [])
            | ErrorKind.ChunksMissing missing_chunks =>
                let orphan : Orphan :=
                  { block := block, provenance := provenance, added := now }
                (Except.error (ErrorKind.ChunksMissing missing_chunks),
                 { st with blocks_with_missing_chunks :=
                     st.blocks_with_missing_chunks.add orphan now },
                 [Event.missesChunks missing_chunks])
            | ErrorKind.Unfit msg => (Except.error (ErrorKind.Unfit msg), st, [])
            | e => (Except.error (ErrorKind.Other (errorDebug e)), st, [])

/-- The for-loop over one popped orphan bucket inside `Chain::check_orphans`:
process each orphan; an `Ok` overwrites `maybe_new_head` and sets
`orphan_accepted` (never cleared); an `Err` is a silent decline. -/
def Chain.process_orphan_bucket (rt : RuntimeAdapter) (me : Option AccountId)
    (now : Nat) : List Orphan → Bool → Option Tip → ChainState →
    Bool × Option Tip × ChainState × List Event
  | [], orphan_accepted, maybe_new_head, st => (orphan_accepted, maybe_new_head, st, [])
  | orphan :: rest, orphan_accepted, maybe_new_head, st =>
      let r := Chain.process_block_single rt me orphan.block orphan.provenance now st
      match r.1 with
      | Except.ok maybe_tip =>
          let next := Chain.process_orphan_bucket rt me now rest true maybe_tip r.2.1
          (next.1, next.2.1, next.2.2.1, r.2.2 ++ next.2.2.2)
      | Except.error _ =>
          let next :=
            Chain.process_orphan_bucket rt me now rest orphan_accepted maybe_new_head r.2.1
          (next.1, next.2.1, next.2.2.1, r.2.2 ++ next.2.2.2)

/-- The `loop` of `Chain::check_orphans`, with explicit fuel (the source loop
terminates because heights strictly increase and the pool holds finitely many
buckets). Pop the bucket at the current height, process it, and continue at
the next height exactly when `orphan_accepted` — a flag that, once set by any
acceptance at any height of this cascade, is never cleared. -/
def Chain.check_orphans_loop (rt : RuntimeAdapter) (me : Option AccountId)
    (now : Nat) : Nat → Nat → Bool → Option Tip → ChainState →
    Option Tip × ChainState × List Event
  | 0, _, _, maybe_new_head, st => (maybe_new_head, st, [])
  | fuel + 1, height, orphan_accepted, maybe_new_head, st =>
      match st.orphans.remove_by_height height with
      | (none, pool) => (maybe_new_head, { st with orphans := pool }, [])
      | (some bucket, pool) =>
          let r := Chain.process_orphan_bucket rt me now bucket orphan_accepted
            maybe_new_head { st with orphans := pool }
          if r.1 then
            let next := Chain.check_orphans_loop rt me now fuel (height + 1) r.1 r.2.1 r.2.2.1
            (next.1, next.2.1, r.2.2.2 ++ next.2.2)
          else (r.2.1, r.2.2.1, r.2.2.2)

/-- `Chain::check_orphans`: run the cascade starting at a height with the
accepted flag clear and no new head. -/
def Chain.check_orphans (rt : RuntimeAdapter) (me : Option AccountId) (now : Nat)
    (fuel : Nat) (height : Nat) (st : ChainState) :
    Option Tip × ChainState × List Event :=
  Chain.check_orphans_loop rt me now fuel height false none st

/-- `Chain::process_block`: run the single-block transaction; on success drain
the orphan cascade from the next height, returning the cascade's head when it
produced one. -/
def Chain.process_block (rt : RuntimeAdapter) (me : Option AccountId)
    (block : Block) (provenance : Provenance) (now : Nat) (fuel : Nat)
    (st : ChainState) : Except ErrorKind (Option Tip) × ChainState × List Event :=
  let height := block.header.height
  let r := Chain.process_block_single rt me block provenance now st
  match r.1 with
  | Except.ok res =>
      let c := Chain.check_orphans rt me now fuel (height + 1) r.2.1
      match c.1 with
      | some new_res => (Except.ok (some new_res), c.2.1, r.2.2 ++ c.2.2)
      | none => (Except.ok res, c.2.1, r.2.2 ++ c.2.2)
  | Except.error e => (Except.error e, r.2.1, r.2.2)

/-! ## Concrete fixtures

A one-shard runtime whose node tracks no shard, a shared non-fresh chunk
header, and a small chain `G ← B1 ← B2` with competing `B2'`, a stored fork
`X3` and its child `Y4`. -/

/-- A one-shard runtime: weight recomputation accepts the header's weight, and
this node cares about no shard. -/
def rt1 : RuntimeAdapter :=
  { num_shards := 1
    account_id_to_shard_id := fun _ => 0
    cares_about_shard := fun _ _ _ => false
    compute_block_weight := fun _ header => Except.ok header.total_weight
    apply_transactions := fun _ _ _ _ _ _ => Except.error "runtime not exercised"
    add_validator_proposals := fun _ _ _ _ => Except.ok () }

/-- The single chunk header shared by every fixture block (included at height
0, hence never fresh for blocks of height ≥ 1). -/
def c0 : ShardChunkHeader :=
  { height_included := 0, prev_block_hash := 0, prev_state_root := 0 }

/-- The state root matching a `[c0]` chunk list. -/
def root1 : Hash := Block.compute_state_root [c0]

/-- A fixture block carrying the shared chunk header. -/
def mkBlock (height : Nat) (prev : Hash) (ts w : Nat) : Block :=
  { header :=
      { height := height, prev_hash := prev, prev_state_root := root1,
        timestamp := ts, total_weight := w }
    chunks := [c0]
    transactions := [] }

def genesisB : Block := mkBlock 0 0 0 0
def blockB1 : Block := mkBlock 1 genesisB.hash 1 1
def blockB2 : Block := mkBlock 2 blockB1.hash 2 2
def blockB2f : Block := mkBlock 2 blockB1.hash 3 3
def blockX3 : Block := mkBlock 3 777 3 1
def blockY4 : Block := mkBlock 4 blockX3.hash 4 2

/-- A store holding the given blocks (and their headers) with all three heads
at the given tips. -/
def mkStore (bs : List Block) (head header_head : Tip) : ChainStore :=
  { blocks := bs.map (fun b => (b.hash, b))
    headers := bs.map (fun b => (b.header.hash, b.header))
    chunks := []
    head := some head
    header_head := some header_head
    sync_head := some header_head
    post_state_roots := []
    incoming_receipts := []
    outgoing_receipts := []
    transaction_results := []
    trie_changes := [] }

def mkState (s : ChainStore) : ChainState :=
  { store := s, orphans := OrphanBlockPool.new,
    blocks_with_missing_chunks := OrphanBlockPool.new }

/-- Fresh chain: only genesis, all heads at genesis. -/
def stGenesis : ChainState :=
  mkState (mkStore [genesisB] (Tip.from_header genesisB.header)
    (Tip.from_header genesisB.header))

/-- The state after `B1` has been accepted on top of genesis. -/
def stAfterB1 : ChainState :=
  (Chain.process_block rt1 none blockB1 Provenance.PRODUCED 1000 10 stGenesis).2.1

/-- Chain `G ← B1 ← B2` with every head at `B2`: the reorg scenario. -/
def stReorg : ChainState :=
  mkState (mkStore [genesisB, blockB1, blockB2] (Tip.from_header blockB2.header)
    (Tip.from_header blockB2.header))

/-- Orphan-cascade scenario: store holds `G` and the fork `X3`, heads at `G`;
the orphan pool holds `B2` (height 2), a duplicate of the stored `X3`
(height 3) and `Y4` (height 4). Submitting `B1` unlocks the cascade. -/
def orphB2 : Orphan := { block := blockB2, provenance := Provenance.PRODUCED, added := 999 }
def orphX3 : Orphan := { block := blockX3, provenance := Provenance.PRODUCED, added := 999 }
def orphY4 : Orphan := { block := blockY4, provenance := Provenance.PRODUCED, added := 999 }

def stCascade : ChainState :=
  let base := mkState (mkStore [genesisB, blockX3] (Tip.from_header genesisB.header)
    (Tip.from_header genesisB.header))
  { base with orphans :=
      ((OrphanBlockPool.new.add orphB2 999).add orphX3 999).add orphY4 999 }

/-- Store for the old-block scenario: the head is a tip at height 10 and a
block at height 60 sits in the store. -/
def blockB60 : Block := mkBlock 60 999 6 1

def tipH10 : Tip :=
  { height := 10, last_block_hash := 555, prev_block_hash := 554, total_weight := 10 }

def storeOld : ChainStore := mkStore [blockB60] tipH10 tipH10

/-- Store for the amended old-block witness: head at height 200. -/
def tipH200 : Tip :=
  { height := 200, last_block_hash := 555, prev_block_hash := 554, total_weight := 10 }

def storeOld200 : ChainStore := mkStore [blockB60] tipH200 tipH200

/-- A block whose chunk-header count (0) cannot match any positive shard
count. -/
def blockNoChunks : Block :=
  { header :=
      { height := 1, prev_hash := genesisB.hash, prev_state_root := root1,
        timestamp := 1, total_weight := 1 }
    chunks := []
    transactions := [] }

/-- The reorg submission through the chain-update transaction alone. -/
def reorgRun : Except ErrorKind (Option Tip × ChainStoreUpdate) :=
  ChainUpdate.process_block rt1 OrphanBlockPool.new OrphanBlockPool.new none
    blockB2f Provenance.PRODUCED 1000 (ChainStoreUpdate.new stReorg.store)

/-- The payload of `reorgRun` (which concretely succeeds). -/
def reorgRes : Option Tip × ChainStoreUpdate :=
  match reorgRun with
  | Except.ok p => p
  | Except.error _ => (none, ChainStoreUpdate.new stReorg.store)

/-- The reorg submission through the facade. -/
def reorgSingle : Except ErrorKind (Option Tip) × ChainState × List Event :=
  Chain.process_block_single rt1 none blockB2f Provenance.PRODUCED 1000 stReorg

/-- A chain state whose orphan pool holds exactly `B2` at height 2, used to
instantiate the cascade-step characterization. -/
def stOneOrphan : ChainState :=
  { stGenesis with orphans := OrphanBlockPool.new.add orphB2 999 }

/-! ## Orphan-pool operation sequences and large fixtures -/

/-- One public orphan-pool operation. -/
inductive PoolOp where
  | add (orphan : Orphan) (now : Nat)
  | remove_by_height (height : Nat)

def applyOp (p : OrphanBlockPool) : PoolOp → OrphanBlockPool
  | PoolOp.add o now => p.add o now
  | PoolOp.remove_by_height h => (p.remove_by_height h).2

/-- Run a sequence of pool operations from the empty pool. -/
def runOps (ops : List PoolOp) : OrphanBlockPool :=
  ops.foldl applyOp OrphanBlockPool.new

/-- The `i`-th filler orphan at height 0; entry 0 is stale (arrived at time 0),
the rest arrived at time 900. -/
def c5entry (i : Nat) : Orphan :=
  { block := mkBlock 0 i 0 0
    provenance := Provenance.NONE
    added := if i = 0 then 0 else 900 }

/-- A fresh orphan at height 1 whose arrival tips the pool over the cap. -/
def c5new : Orphan :=
  { block := mkBlock 1 5000 5 0, provenance := Provenance.NONE, added := 900 }

/-- 1024 adds at height 0 followed by the add of `c5new` at height 1 at time
1000 (which triggers eviction). -/
def c5ops : List PoolOp :=
  ((List.range 1024).map (fun i => PoolOp.add (c5entry i) 900)) ++
    [PoolOp.add c5new 1000]

/-- The height-0 bucket contents after running `c5ops`. -/
def c5bucket0 : List Hash := (List.range 1024).map (fun i => (c5entry i).block.hash)

/-- The pool after the first 1024 adds of `c5ops` (no eviction yet). -/
def c5pool : OrphanBlockPool :=
  { orphans := (List.range 1024).map (fun i => ((c5entry i).block.hash, c5entry i))
    height_idx := [(0, c5bucket0)]
    evicted := 0 }

/-- The `i`-th filler orphan for the eviction-order scenario: entries 0 and 1
are stale, the rest fresh. -/
def c7entry (i : Nat) : Orphan :=
  { block := mkBlock 0 i 0 0
    provenance := Provenance.NONE
    added := if i < 2 then 0 else 900 }

/-- A pool already holding 1024 orphans at height 0 (two of them stale). -/
def c7pool : OrphanBlockPool :=
  { orphans := (List.range 1024).map (fun i => ((c7entry i).block.hash, c7entry i))
    height_idx := [(0, (List.range 1024).map (fun i => (c7entry i).block.hash))]
    evicted := 0 }

/-- The fresh orphan at height 1 whose arrival triggers eviction in `c7pool`. -/
def c7new : Orphan :=
  { block := mkBlock 1 5000 5 0, provenance := Provenance.NONE, added := 900 }

/-! ## Helper lemmas -/

theorem single_error_state (rt : RuntimeAdapter) (me : Option AccountId)
    (block : Block) (prov : Provenance) (now : Nat) (st : ChainState)
    (e : ErrorKind) (st' : ChainState) (evs : List Event)
    (h : Chain.process_block_single rt me block prov now st = (Except.error e, st', evs)) :
    st'.store = st.store := by
  unfold Chain.process_block_single at h
  split at h
  · cases h; rfl
  · split at h
    · cases h; rfl
    · split at h
      · cases h
      · split at h
        · cases h; rfl
        · cases h; rfl
        · cases h; rfl
        · cases h; rfl

theorem process_block_of_single_error (rt : RuntimeAdapter) (me : Option AccountId)
    (block : Block) (prov : Provenance) (now : Nat) (fuel : Nat) (st : ChainState)
    (e : ErrorKind) (st2 : ChainState) (evs2 : List Event)
    (hr : Chain.process_block_single rt me block prov now st = (Except.error e, st2, evs2)) :
    Chain.process_block rt me block prov now fuel st = (Except.error e, st2, evs2) := by
  unfold Chain.process_block
  rw [hr]

theorem process_block_error_state (rt : RuntimeAdapter) (me : Option AccountId)
    (block : Block) (prov : Provenance) (now : Nat) (fuel : Nat) (st : ChainState)
    (e : ErrorKind)
    (h : (Chain.process_block rt me block prov now fuel st).1 = Except.error e) :
    (Chain.process_block rt me block prov now fuel st).2.1.store = st.store := by
  rcases hr : Chain.process_block_single rt me block prov now st with ⟨r1, st2, evs2⟩
  cases r1 with
  | ok res =>
      exfalso
      unfold Chain.process_block at h
      rw [hr] at h
      dsimp only at h
      split at h <;> cases h
  | error e' =>
      rw [process_block_of_single_error rt me block prov now fuel st e' st2 evs2 hr]
      exact single_error_state rt me block prov now st e' st2 evs2 hr

theorem process_block_check_known_error (rt : RuntimeAdapter)
    (o m : OrphanBlockPool) (me : Option AccountId) (block : Block)
    (prov : Provenance) (now : Nat) (u : ChainStoreUpdate) (e : ErrorKind)
    (hck : ChainUpdate.check_known u o m block = Except.error e) :
    ChainUpdate.process_block rt o m me block prov now u = Except.error e := by
  unfold ChainUpdate.process_block
  simp only [hck]

theorem single_of_unfit (rt : RuntimeAdapter) (me : Option AccountId)
    (block : Block) (prov : Provenance) (now : Nat) (st : ChainState)
    (ph : Tip) (msg : String)
    (hns : block.chunks.length = rt.num_shards)
    (hhd : st.store.head = some ph)
    (hpb : ChainUpdate.process_block rt st.orphans st.blocks_with_missing_chunks
      me block prov now (ChainStoreUpdate.new st.store) =
      Except.error (ErrorKind.Unfit msg)) :
    Chain.process_block_single rt me block prov now st =
      (Except.error (ErrorKind.Unfit msg), st, []) := by
  unfold Chain.process_block_single
  rw [if_neg (by simp [hns])]
  simp only [ChainStore.headE, hhd, hpb]

theorem bucket_flag_sticky (rt : RuntimeAdapter) (me : Option AccountId) (now : Nat) :
    ∀ (bucket : List Orphan) (mnh : Option Tip) (st : ChainState),
      (Chain.process_orphan_bucket rt me now bucket true mnh st).1 = true := by
  intro bucket
  induction bucket with
  | nil => intro mnh st; rfl
  | cons o rest ih =>
      intro mnh st
      unfold Chain.process_orphan_bucket
      cases hr : (Chain.process_block_single rt me o.block o.provenance now st).1 with
      | ok t => simp only [hr]; exact ih t _
      | error e => simp only [hr]; exact ih mnh _

theorem alookup_ainsert_self {β : Type} [DecidableEq Hash] (k : Hash) (v : β)
    (l : List (Hash × β)) : alookup k (ainsert k v l) = some v := by
  induction l with
  | nil => simp [ainsert, alookup]
  | cons p rest ih =>
      by_cases hp : p.1 = k
      · simpa [ainsert, List.filter, hp] using ih
      · simpa [ainsert, List.filter, hp, alookup] using ih

theorem alookup_some_mem {β : Type} (l : List (Hash × β)) (k : Hash) (v : β)
    (h : alookup k l = some v) : (k, v) ∈ l := by
  induction l with
  | nil => cases h
  | cons p rest ih =>
      unfold alookup at h
      split at h
      · cases h
        rename_i hk
        rw [← hk]
        exact List.mem_cons_self p rest
      · exact List.mem_cons_of_mem p (ih h)

theorem alookup_eq_none_iff {β : Type} (l : List (Hash × β)) (k : Hash) :
    alookup k l = none ↔ k ∉ keysOf l := by
  induction l with
  | nil => simp [alookup, keysOf]
  | cons p rest ih =>
      unfold alookup
      by_cases hk : p.1 = k
      · simp [hk, keysOf]
      · simp [hk, keysOf, Ne.symm hk] at ih ⊢
        exact ih

theorem mem_keysOf_of_mem {β : Type} (l : List (Hash × β)) (k : Hash) (v : β)
    (h : (k, v) ∈ l) : k ∈ keysOf l := by
  induction l with
  | nil => cases h
  | cons p rest ih =>
      rcases List.mem_cons.mp h with h1 | h2
      · rw [← h1]; exact List.mem_cons_self _ _
      · exact List.mem_cons_of_mem _ (ih h2)

theorem alookup_key_mem {β : Type} (l : List (Hash × β)) (k : Hash) (v : β)
    (h : alookup k l = some v) : k ∈ keysOf l :=
  mem_keysOf_of_mem l k v (alookup_some_mem l k v h)

theorem mem_aremove_sub {β : Type} (l : List (Hash × β)) (x : Hash)
    (p : Hash × β) (h : p ∈ aremove x l) : p ∈ l :=
  List.mem_of_mem_filter h

theorem alookup_aremove_self {β : Type} (l : List (Hash × β)) (k : Hash) :
    alookup k (aremove k l) = none := by
  rw [alookup_eq_none_iff]
  intro hmem
  simp only [keysOf, List.mem_map] at hmem
  obtain ⟨p, hp, hk⟩ := hmem
  have := List.of_mem_filter hp
  simp only [decide_eq_true_eq] at this
  exact this hk

theorem alookup_aremove_ne {β : Type} (l : List (Hash × β)) (x k : Hash)
    (h : k ≠ x) : alookup k (aremove x l) = alookup k l := by
  induction l with
  | nil => rfl
  | cons p rest ih =>
      obtain ⟨p1, p2⟩ := p
      unfold aremove at ih ⊢
      by_cases hp : p1 = x
      · rw [List.filter_cons_of_neg (by simp [hp])]
        rw [ih]
        have hstep : alookup k ((p1, p2) :: rest) = alookup k rest := by
          simp only [alookup]
          rw [if_neg (by rw [hp]; exact fun hx => h hx.symm)]
        rw [hstep]
      · rw [List.filter_cons_of_pos (by simpa using hp)]
        simp only [alookup]
        by_cases hk : p1 = k
        · rw [if_pos hk, if_pos hk]
        · rw [if_neg hk, if_neg hk]
          exact ih

theorem keysOf_aremove_sub {β : Type} (l : List (Hash × β)) (x k : Hash)
    (h : k ∈ keysOf (aremove x l)) : k ∈ keysOf l ∧ k ≠ x := by
  simp only [keysOf, List.mem_map] at h
  obtain ⟨p, hp, hk⟩ := h
  have h1 := List.mem_of_mem_filter hp
  have h2 := List.of_mem_filter hp
  simp only [decide_eq_true_eq] at h2
  constructor
  · simp only [keysOf, List.mem_map]
    exact ⟨p, h1, hk⟩
  · rw [← hk]; exact h2

theorem foldl_aremove_sub {β : Type} (bucket : List Hash) :
    ∀ (o : List (Hash × β)) (p : Hash × β),
      p ∈ bucket.foldl (fun os x => aremove x os) o → p ∈ o := by
  induction bucket with
  | nil => intro o p h; exact h
  | cons x rest ih =>
      intro o p h
      exact mem_aremove_sub o x p (ih (aremove x o) p h)

theorem foldl_aremove_none {β : Type} (bucket : List Hash) :
    ∀ (o : List (Hash × β)) (k : Hash), alookup k o = none →
      alookup k (bucket.foldl (fun os x => aremove x os) o) = none := by
  induction bucket with
  | nil => intro o k h; exact h
  | cons x rest ih =>
      intro o k h
      refine ih (aremove x o) k ?_
      by_cases hk : k = x
      · rw [hk]; exact alookup_aremove_self o x
      · rw [alookup_aremove_ne o x k hk]; exact h

theorem foldl_aremove_of_mem {β : Type} (bucket : List Hash) :
    ∀ (o : List (Hash × β)) (k : Hash), k ∈ bucket →
      alookup k (bucket.foldl (fun os x => aremove x os) o) = none := by
  induction bucket with
  | nil => intro o k h; cases h
  | cons x rest ih =>
      intro o k h
      rcases List.mem_cons.mp h with h1 | h2
      · rw [h1]
        exact foldl_aremove_none rest (aremove x o) x (alookup_aremove_self o x)
      · exact ih (aremove x o) k h2

theorem foldl_aremove_keys {β : Type} (bucket : List Hash) :
    ∀ (o : List (Hash × β)) (k : Hash),
      k ∈ keysOf (bucket.foldl (fun os x => aremove x os) o) →
      k ∈ keysOf o ∧ k ∉ bucket := by
  induction bucket with
  | nil => intro o k h; exact ⟨h, fun hx => by cases hx⟩
  | cons x rest ih =>
      intro o k h
      obtain ⟨h1, h2⟩ := ih (aremove x o) k h
      obtain ⟨h3, h4⟩ := keysOf_aremove_sub o x k h1
      refine ⟨h3, fun hx => ?_⟩
      rcases List.mem_cons.mp hx with h5 | h5
      · exact h4 h5
      · exact h2 h5

theorem ainsert_length_le {β : Type} (l : List (Hash × β)) (k : Hash) (v : β) :
    (ainsert k v l).length ≤ l.length + 1 := by
  unfold ainsert
  rw [List.length_append]
  have := List.length_filter_le (fun p => decide (p.1 ≠ k)) l
  simpa using this

theorem alookup_filter_stable {β : Type} (pred : Hash × β → Bool) (l : List (Hash × β))
    (k : Hash) (v : β) (h : alookup k l = some v) (hp : pred (k, v) = true) :
    alookup k (l.filter pred) = some v := by
  induction l with
  | nil => cases h
  | cons p rest ih =>
      obtain ⟨p1, p2⟩ := p
      simp only [alookup] at h
      by_cases hk : p1 = k
      · rw [if_pos hk] at h
        injection h with hv
        subst hv
        have hpk : pred (p1, p2) = true := by rw [hk]; exact hp
        rw [List.filter_cons_of_pos hpk]
        simp only [alookup]
        rw [if_pos hk]
      · rw [if_neg hk] at h
        by_cases hpk : pred (p1, p2) = true
        · rw [List.filter_cons_of_pos hpk]
          simp only [alookup]
          rw [if_neg hk]
          exact ih h
        · rw [List.filter_cons_of_neg (by simpa using hpk)]
          exact ih h

theorem nodup_keysOf_filter {β : Type} (pred : Hash × β → Bool) (l : List (Hash × β))
    (h : (keysOf l).Nodup) : (keysOf (l.filter pred)).Nodup := by
  have hs : List.Sublist (l.filter pred) l := List.filter_sublist l
  have hm := List.Sublist.map Prod.fst hs
  exact List.Nodup.sublist hm h

theorem pushToBucket_self {β : Type} (h : Hash) (x : β) (l : List (Hash × List β)) :
    ∃ bs, alookup h (pushToBucket h x l) = some bs ∧ x ∈ bs := by
  induction l with
  | nil => exact ⟨[x], by simp [pushToBucket, alookup], List.mem_singleton_self x⟩
  | cons p rest ih =>
      obtain ⟨p1, p2⟩ := p
      unfold pushToBucket
      by_cases hp : p1 = h
      · refine ⟨p2 ++ [x], ?_, by simp⟩
        rw [if_pos hp]
        simp only [alookup]
        rw [if_pos hp]
      · obtain ⟨bs, hbs, hmem⟩ := ih
        refine ⟨bs, ?_, hmem⟩
        rw [if_neg hp]
        simp only [alookup]
        rw [if_neg hp]
        exact hbs

theorem pushToBucket_covers {β : Type} (h : Hash) (x : β) (l : List (Hash × List β))
    (h' : Hash) (bs : List β) (hl : alookup h' l = some bs) :
    ∃ bs', alookup h' (pushToBucket h x l) = some bs' ∧ ∀ y ∈ bs, y ∈ bs' := by
  induction l with
  | nil => cases hl
  | cons p rest ih =>
      obtain ⟨p1, p2⟩ := p
      simp only [alookup] at hl
      unfold pushToBucket
      by_cases hp : p1 = h
      · rw [if_pos hp]
        by_cases hq : p1 = h'
        · rw [if_pos hq] at hl
          injection hl with hv
          subst hv
          refine ⟨p2 ++ [x], ?_, fun y hy => List.mem_append_left _ hy⟩
          simp only [alookup]
          rw [if_pos hq]
        · rw [if_neg hq] at hl
          refine ⟨bs, ?_, fun y hy => hy⟩
          simp only [alookup]
          rw [if_neg hq]
          exact hl
      · rw [if_neg hp]
        by_cases hq : p1 = h'
        · rw [if_pos hq] at hl
          injection hl with hv
          subst hv
          refine ⟨p2, ?_, fun y hy => hy⟩
          simp only [alookup]
          rw [if_pos hq]
        · rw [if_neg hq] at hl
          obtain ⟨bs', hbs', hsub⟩ := ih hl
          refine ⟨bs', ?_, hsub⟩
          simp only [alookup]
          rw [if_neg hq]
          exact hbs'

theorem keysOf_pushToBucket_sub {β : Type} (h : Hash) (x : β)
    (l : List (Hash × List β)) (k : Hash)
    (hk : k ∈ keysOf (pushToBucket h x l)) : k ∈ keysOf l ∨ k = h := by
  induction l with
  | nil =>
      simp [pushToBucket, keysOf] at hk
      exact Or.inr hk
  | cons p rest ih =>
      obtain ⟨p1, p2⟩ := p
      unfold pushToBucket at hk
      by_cases hp : p1 = h
      · rw [if_pos hp] at hk
        simp only [keysOf, List.map_cons, List.mem_cons] at hk ⊢
        rcases hk with h1 | h2
        · exact Or.inl (Or.inl h1)
        · exact Or.inl (Or.inr h2)
      · rw [if_neg hp] at hk
        simp only [keysOf, List.map_cons, List.mem_cons] at hk ⊢
        rcases hk with h1 | h2
        · exact Or.inl (Or.inl h1)
        · rcases ih h2 with h3 | h4
          · exact Or.inl (Or.inr h3)
          · exact Or.inr h4

theorem nodup_keysOf_pushToBucket {β : Type} (h : Hash) (x : β)
    (l : List (Hash × List β)) (hl : (keysOf l).Nodup) :
    (keysOf (pushToBucket h x l)).Nodup := by
  induction l with
  | nil => simp [pushToBucket, keysOf]
  | cons p rest ih =>
      obtain ⟨p1, p2⟩ := p
      simp only [keysOf, List.map_cons, List.nodup_cons] at hl
      unfold pushToBucket
      by_cases hp : p1 = h
      · rw [if_pos hp]
        simp only [keysOf, List.map_cons, List.nodup_cons]
        exact hl
      · rw [if_neg hp]
        simp only [keysOf, List.map_cons, List.nodup_cons]
        refine ⟨fun hmem => ?_, ih hl.2⟩
        rcases keysOf_pushToBucket_sub h x rest p1 hmem with h1 | h2
        · exact hl.1 h1
        · exact hp h2

theorem mem_insertDesc (x : Nat) (s : List Nat) (y : Nat) :
    y ∈ insertDesc x s ↔ y = x ∨ y ∈ s := by
  induction s with
  | nil => simp [insertDesc]
  | cons a rest ih =>
      unfold insertDesc
      by_cases ha : a ≤ x
      · simp [ha]
      · simp only [if_neg ha, List.mem_cons, ih]
        tauto

theorem nodup_insertDesc (x : Nat) (s : List Nat) (hx : x ∉ s) (hs : s.Nodup) :
    (insertDesc x s).Nodup := by
  induction s with
  | nil => simp [insertDesc]
  | cons a rest ih =>
      unfold insertDesc
      simp only [List.mem_cons, not_or] at hx
      simp only [List.nodup_cons] at hs
      by_cases ha : a ≤ x
      · rw [if_pos ha]
        simp only [List.nodup_cons, List.mem_cons, not_or]
        exact ⟨⟨hx.1, hx.2⟩, hs.1, hs.2⟩
      · rw [if_neg ha]
        simp only [List.nodup_cons]
        refine ⟨fun hm => ?_, ih hx.2 hs.2⟩
        rcases (mem_insertDesc x rest a).mp hm with h1 | h2
        · exact hx.1 h1.symm
        · exact hs.1 h2

theorem mem_sortDesc (l : List Nat) (y : Nat) : y ∈ sortDesc l ↔ y ∈ l := by
  induction l with
  | nil => simp [sortDesc]
  | cons a rest ih =>
      unfold sortDesc at ih ⊢
      simp only [List.foldr_cons, mem_insertDesc, List.mem_cons, ih]

theorem nodup_sortDesc (l : List Nat) (h : l.Nodup) : (sortDesc l).Nodup := by
  induction l with
  | nil => simp [sortDesc]
  | cons a rest ih =>
      simp only [List.nodup_cons] at h
      unfold sortDesc
      simp only [List.foldr_cons]
      refine nodup_insertDesc a _ ?_ (ih h.2)
      intro hmem
      exact h.1 ((mem_sortDesc rest a).mp hmem)

theorem insertDesc_cons_of_max (x : Nat) (s : List Nat) (h : ∀ y ∈ s, y ≤ x) :
    insertDesc x s = x :: s := by
  cases s with
  | nil => rfl
  | cons a rest =>
      unfold insertDesc
      rw [if_pos (h a (List.mem_cons_self a rest))]

theorem sortDesc_cons_of_max (l : List Nat) (top : Nat) (hmem : top ∈ l)
    (hmax : ∀ y ∈ l, y ≤ top) : ∃ rest, sortDesc l = top :: rest := by
  induction l with
  | nil => cases hmem
  | cons a l' ih =>
      unfold sortDesc
      simp only [List.foldr_cons]
      rcases List.mem_cons.mp hmem with h1 | h2
      · refine ⟨sortDesc l', ?_⟩
        rw [show a = top from h1.symm]
        exact insertDesc_cons_of_max top _ (fun y hy =>
          hmax y (List.mem_cons_of_mem a ((mem_sortDesc l' y).mp hy)))
      · obtain ⟨rest, hrest⟩ := ih h2 (fun y hy => hmax y (List.mem_cons_of_mem a hy))
        unfold sortDesc at hrest
        rw [hrest]
        simp only [insertDesc]
        by_cases ha : top ≤ a
        · have hat : a = top := Nat.le_antisymm (hmax a (List.mem_cons_self a l')) ha
          rw [if_pos ha, hat]
          exact ⟨top :: rest, rfl⟩
        · rw [if_neg ha]
          exact ⟨insertDesc a rest, rfl⟩

theorem evictLoop_cons_none (h : Nat) (rest : List Nat) (o : List (Hash × Orphan))
    (hidx : List (Nat × List Hash)) (rm : List Hash)
    (halk : alookup h hidx = none) :
    evictLoop (h :: rest) o hidx rm =
      (if o.length < MAX_ORPHAN_SIZE then (o, hidx, rm)
       else evictLoop rest o hidx rm) := by
  conv_lhs => unfold evictLoop
  simp only [halk]

theorem evictLoop_cons_some (h : Nat) (rest : List Nat) (o : List (Hash × Orphan))
    (hidx : List (Nat × List Hash)) (rm : List Hash) (bucket : List Hash)
    (halk : alookup h hidx = some bucket) :
    evictLoop (h :: rest) o hidx rm =
      (if (bucket.foldl (fun os x => aremove x os) o).length < MAX_ORPHAN_SIZE then
        (bucket.foldl (fun os x => aremove x os) o, aremove h hidx, rm ++ bucket)
       else evictLoop rest (bucket.foldl (fun os x => aremove x os) o)
         (aremove h hidx) (rm ++ bucket)) := by
  conv_lhs => unfold evictLoop
  simp only [halk]

theorem evictLoop_sub : ∀ (hs : List Nat) (o : List (Hash × Orphan))
    (hidx : List (Nat × List Hash)) (rm : List Hash) (p : Hash × Orphan),
    p ∈ (evictLoop hs o hidx rm).1 → p ∈ o := by
  intro hs
  induction hs with
  | nil => intro o hidx rm p hp; exact hp
  | cons h rest ih =>
      intro o hidx rm p hp
      cases halk : alookup h hidx with
      | none =>
          rw [evictLoop_cons_none h rest o hidx rm halk] at hp
          split at hp
          · exact hp
          · exact ih _ _ _ _ hp
      | some bucket =>
          rw [evictLoop_cons_some h rest o hidx rm bucket halk] at hp
          split at hp
          · exact foldl_aremove_sub bucket o p hp
          · exact foldl_aremove_sub bucket o p (ih _ _ _ _ hp)

theorem evictLoop_none_stable : ∀ (hs : List Nat) (o : List (Hash × Orphan))
    (hidx : List (Nat × List Hash)) (rm : List Hash) (k : Hash),
    alookup k o = none → alookup k (evictLoop hs o hidx rm).1 = none := by
  intro hs
  induction hs with
  | nil => intro o hidx rm k hk; exact hk
  | cons h rest ih =>
      intro o hidx rm k hk
      cases halk : alookup h hidx with
      | none =>
          rw [evictLoop_cons_none h rest o hidx rm halk]
          split
          · exact hk
          · exact ih _ _ _ _ (foldl_aremove_none [] o k hk)
      | some bucket =>
          rw [evictLoop_cons_some h rest o hidx rm bucket halk]
          split
          · exact foldl_aremove_none bucket o k hk
          · exact ih _ _ _ _ (foldl_aremove_none bucket o k hk)

theorem keysOf_nil_eq {β : Type} (o : List (Hash × β)) (h : keysOf o = []) : o = [] := by
  cases o with
  | nil => rfl
  | cons p rest => cases h

theorem evictLoop_spec : ∀ (hs : List Nat) (o : List (Hash × Orphan))
    (hidx : List (Nat × List Hash)) (rm : List Hash),
    hs.Nodup →
    (∀ k, k ∈ keysOf o → ∃ h, h ∈ hs ∧ ∃ bs, alookup h hidx = some bs ∧ k ∈ bs) →
    (∀ k, k ∈ keysOf o → k ∉ rm) →
    (keysOf hidx).Nodup →
    (evictLoop hs o hidx rm).1.length < MAX_ORPHAN_SIZE ∧
    (keysOf (evictLoop hs o hidx rm).2.1).Nodup ∧
    (∀ k, k ∈ keysOf (evictLoop hs o hidx rm).1 →
      k ∉ (evictLoop hs o hidx rm).2.2 ∧
      ∃ h bs, alookup h (evictLoop hs o hidx rm).2.1 = some bs ∧ k ∈ bs) := by
  intro hs
  induction hs with
  | nil =>
      intro o hidx rm _ cov _ ndh
      have ho : o = [] := by
        refine keysOf_nil_eq o ?_
        cases hko : keysOf o with
        | nil => rfl
        | cons k ks =>
            obtain ⟨h, hmem, _⟩ := cov k (by rw [hko]; exact List.mem_cons_self k ks)
            cases hmem
      subst ho
      have h0 : (evictLoop [] [] hidx rm).1.length < MAX_ORPHAN_SIZE := by
        show ([] : List (Hash × Orphan)).length < MAX_ORPHAN_SIZE
        decide
      exact ⟨h0, ndh, fun k hk => by cases hk⟩
  | cons h rest ih =>
      intro o hidx rm hnd cov norm ndh
      have hndr : rest.Nodup := (List.nodup_cons.mp hnd).2
      have hnotin : h ∉ rest := (List.nodup_cons.mp hnd).1
      cases halk : alookup h hidx with
      | none =>
          rw [evictLoop_cons_none h rest o hidx rm halk]
          have cov' : ∀ k, k ∈ keysOf o →
              ∃ h', h' ∈ rest ∧ ∃ bs, alookup h' hidx = some bs ∧ k ∈ bs := by
            intro k hk
            obtain ⟨h', hmem, bs, hbs, hkbs⟩ := cov k hk
            rcases List.mem_cons.mp hmem with h1 | h2
            · rw [h1] at hbs; rw [halk] at hbs; cases hbs
            · exact ⟨h', h2, bs, hbs, hkbs⟩
          split
          · rename_i hlen
            refine ⟨hlen, ndh, fun k hk => ⟨norm k hk, ?_⟩⟩
            obtain ⟨h', _, bs, hbs, hkbs⟩ := cov' k hk
            exact ⟨h', bs, hbs, hkbs⟩
          · exact ih o hidx rm hndr cov' norm ndh
      | some bucket =>
          rw [evictLoop_cons_some h rest o hidx rm bucket halk]
          have cov2 : ∀ k, k ∈ keysOf (bucket.foldl (fun os x => aremove x os) o) →
              ∃ h', h' ∈ rest ∧ ∃ bs, alookup h' (aremove h hidx) = some bs ∧ k ∈ bs := by
            intro k hk
            obtain ⟨hko, hkb⟩ := foldl_aremove_keys bucket o k hk
            obtain ⟨h', hmem, bs, hbs, hkbs⟩ := cov k hko
            rcases List.mem_cons.mp hmem with h1 | h2
            · rw [h1] at hbs; rw [halk] at hbs
              injection hbs with hbs'
              rw [← hbs'] at hkbs
              exact absurd hkbs hkb
            · have hne : h' ≠ h := fun he => hnotin (he ▸ h2)
              exact ⟨h', h2, bs, by rw [alookup_aremove_ne hidx h h' hne]; exact hbs, hkbs⟩
          have norm2 : ∀ k, k ∈ keysOf (bucket.foldl (fun os x => aremove x os) o) →
              k ∉ rm ++ bucket := by
            intro k hk
            obtain ⟨hko, hkb⟩ := foldl_aremove_keys bucket o k hk
            intro hmem
            rcases List.mem_append.mp hmem with h1 | h2
            · exact norm k hko h1
            · exact hkb h2
          have ndh2 : (keysOf (aremove h hidx)).Nodup :=
            nodup_keysOf_filter _ hidx ndh
          split
          · rename_i hlen
            refine ⟨hlen, ndh2, fun k hk => ⟨norm2 k hk, ?_⟩⟩
            obtain ⟨h', _, bs, hbs, hkbs⟩ := cov2 k hk
            exact ⟨h', bs, hbs, hkbs⟩
          · exact ih _ _ _ hndr cov2 norm2 ndh2

theorem add_eq_of_over (p : OrphanBlockPool) (orphan : Orphan) (now : Nat)
    (htrig : (ainsert orphan.block.hash orphan p.orphans).length > MAX_ORPHAN_SIZE) :
    p.add orphan now =
      { orphans :=
          (evictLoop
            (sortDesc (keysOf (pushToBucket orphan.block.header.height
              orphan.block.hash p.height_idx)))
            ((ainsert orphan.block.hash orphan p.orphans).filter
              (fun kv => now - kv.2.added < MAX_ORPHAN_AGE_SECS))
            (pushToBucket orphan.block.header.height orphan.block.hash p.height_idx)
            []).1
        height_idx :=
          (evictLoop
            (sortDesc (keysOf (pushToBucket orphan.block.header.height
              orphan.block.hash p.height_idx)))
            ((ainsert orphan.block.hash orphan p.orphans).filter
              (fun kv => now - kv.2.added < MAX_ORPHAN_AGE_SECS))
            (pushToBucket orphan.block.header.height orphan.block.hash p.height_idx)
            []).2.1.filter
            (fun kv => kv.2.any (fun x =>
              ¬ (evictLoop
                (sortDesc (keysOf (pushToBucket orphan.block.header.height
                  orphan.block.hash p.height_idx)))
                ((ainsert orphan.block.hash orphan p.orphans).filter
                  (fun kv => now - kv.2.added < MAX_ORPHAN_AGE_SECS))
                (pushToBucket orphan.block.header.height orphan.block.hash p.height_idx)
                []).2.2.contains x))
        evicted := p.evicted +
          ((ainsert orphan.block.hash orphan p.orphans).length -
            (evictLoop
              (sortDesc (keysOf (pushToBucket orphan.block.header.height
                orphan.block.hash p.height_idx)))
              ((ainsert orphan.block.hash orphan p.orphans).filter
                (fun kv => now - kv.2.added < MAX_ORPHAN_AGE_SECS))
              (pushToBucket orphan.block.header.height orphan.block.hash p.height_idx)
              []).1.length) } := by
  simp only [OrphanBlockPool.add]
  rw [if_pos htrig]

theorem add_eq_of_le (p : OrphanBlockPool) (orphan : Orphan) (now : Nat)
    (hle : ¬ (ainsert orphan.block.hash orphan p.orphans).length > MAX_ORPHAN_SIZE) :
    p.add orphan now =
      { orphans := ainsert orphan.block.hash orphan p.orphans
        height_idx := pushToBucket orphan.block.header.height orphan.block.hash p.height_idx
        evicted := p.evicted } := by
  simp only [OrphanBlockPool.add]
  rw [if_neg hle]

theorem add_preserves_inv (p : OrphanBlockPool) (orphan : Orphan) (now : Nat)
    (inv1 : ∀ k, k ∈ keysOf p.orphans →
      ∃ h bs, alookup h p.height_idx = some bs ∧ k ∈ bs)
    (inv2 : (keysOf p.height_idx).Nodup) :
    (∀ k, k ∈ keysOf (p.add orphan now).orphans →
      ∃ h bs, alookup h (p.add orphan now).height_idx = some bs ∧ k ∈ bs) ∧
    (keysOf (p.add orphan now).height_idx).Nodup ∧
    (p.orphans.length ≤ MAX_ORPHAN_SIZE →
      (p.add orphan now).orphans.length ≤ MAX_ORPHAN_SIZE) := by
  have inv1' : ∀ k, k ∈ keysOf (ainsert orphan.block.hash orphan p.orphans) →
      ∃ h bs, alookup h (pushToBucket orphan.block.header.height
        orphan.block.hash p.height_idx) = some bs ∧ k ∈ bs := by
    intro k hk
    unfold ainsert at hk
    simp only [keysOf, List.map_append, List.mem_append, List.map_cons, List.map_nil,
      List.mem_singleton] at hk
    rcases hk with hk1 | hk2
    · have hk' : k ∈ keysOf p.orphans := by
        simp only [List.mem_map] at hk1
        obtain ⟨q, hq, he⟩ := hk1
        simp only [keysOf, List.mem_map]
        exact ⟨q, List.mem_of_mem_filter hq, he⟩
      obtain ⟨h, bs, hbs, hkbs⟩ := inv1 k hk'
      obtain ⟨bs', hbs', hsub⟩ := pushToBucket_covers orphan.block.header.height
        orphan.block.hash p.height_idx h bs hbs
      exact ⟨h, bs', hbs', hsub k hkbs⟩
    · obtain ⟨bs, hbs, hmem⟩ := pushToBucket_self orphan.block.header.height
        orphan.block.hash p.height_idx
      exact ⟨orphan.block.header.height, bs, hbs, by rw [hk2]; exact hmem⟩
  have inv2' : (keysOf (pushToBucket orphan.block.header.height
      orphan.block.hash p.height_idx)).Nodup :=
    nodup_keysOf_pushToBucket _ _ _ inv2
  by_cases htrig : (ainsert orphan.block.hash orphan p.orphans).length > MAX_ORPHAN_SIZE
  · rw [add_eq_of_over p orphan now htrig]
    have hspec := evictLoop_spec
      (sortDesc (keysOf (pushToBucket orphan.block.header.height
        orphan.block.hash p.height_idx)))
      ((ainsert orphan.block.hash orphan p.orphans).filter
        (fun kv => now - kv.2.added < MAX_ORPHAN_AGE_SECS))
      (pushToBucket orphan.block.header.height orphan.block.hash p.height_idx)
      []
      (nodup_sortDesc _ inv2')
      (by
        intro k hk
        have hk1 : k ∈ keysOf (ainsert orphan.block.hash orphan p.orphans) := by
          simp only [keysOf, List.mem_map] at hk ⊢
          obtain ⟨q, hq, he⟩ := hk
          exact ⟨q, List.mem_of_mem_filter hq, he⟩
        obtain ⟨h, bs, hbs, hkbs⟩ := inv1' k hk1
        exact ⟨h, (mem_sortDesc _ h).mpr (alookup_key_mem _ h bs hbs), bs, hbs, hkbs⟩)
      (fun k _ hmem => by cases hmem)
      inv2'
    obtain ⟨hlen, hnd, hcov⟩ := hspec
    refine ⟨?_, ?_, fun _ => Nat.le_of_lt hlen⟩
    · intro k hk
      obtain ⟨hnotrm, h, bs, hbs, hkbs⟩ := hcov k hk
      refine ⟨h, bs, ?_, hkbs⟩
      refine alookup_filter_stable _ _ h bs hbs ?_
      simp only [List.any_eq_true, decide_eq_true_eq]
      refine ⟨k, hkbs, ?_⟩
      simp only [List.contains, List.elem_iff]
      exact hnotrm
    · exact nodup_keysOf_filter _ _ hnd
  · rw [add_eq_of_le p orphan now htrig]
    refine ⟨inv1', inv2', fun _ => Nat.le_of_not_lt (fun hlt => htrig hlt)⟩

theorem remove_fold_keys : ∀ (hs : List Hash) (accl : List Orphan)
    (o : List (Hash × Orphan)) (k : Hash),
    k ∈ keysOf ((hs.foldl
      (fun (acc : List Orphan × List (Hash × Orphan)) h =>
        match alookup h acc.2 with
        | some o' => (acc.1 ++ [o'], aremove h acc.2)
        | none => acc)
      (accl, o)).2) →
    k ∈ keysOf o ∧ k ∉ hs := by
  intro hs
  induction hs with
  | nil => intro accl o k hk; exact ⟨hk, fun h => by cases h⟩
  | cons x rest ih =>
      intro accl o k hk
      simp only [List.foldl_cons] at hk
      cases halk : alookup x o with
      | some o' =>
          rw [show alookup x (accl, o).2 = some o' from halk] at hk
          obtain ⟨h1, h2⟩ := ih _ _ _ hk
          obtain ⟨h3, h4⟩ := keysOf_aremove_sub o x k h1
          refine ⟨h3, fun hm => ?_⟩
          rcases List.mem_cons.mp hm with h5 | h5
          · exact h4 h5
          · exact h2 h5
      | none =>
          rw [show alookup x (accl, o).2 = none from halk] at hk
          obtain ⟨h1, h2⟩ := ih _ _ _ hk
          refine ⟨h1, fun hm => ?_⟩
          rcases List.mem_cons.mp hm with h5 | h5
          · exact (alookup_eq_none_iff o x).mp halk (h5 ▸ h1)
          · exact h2 h5

theorem remove_preserves_inv (p : OrphanBlockPool) (height : Nat)
    (inv1 : ∀ k, k ∈ keysOf p.orphans →
      ∃ h bs, alookup h p.height_idx = some bs ∧ k ∈ bs)
    (inv2 : (keysOf p.height_idx).Nodup) :
    (∀ k, k ∈ keysOf (p.remove_by_height height).2.orphans →
      ∃ h bs, alookup h (p.remove_by_height height).2.height_idx = some bs ∧ k ∈ bs) ∧
    (keysOf (p.remove_by_height height).2.height_idx).Nodup := by
  unfold OrphanBlockPool.remove_by_height
  cases halk : alookup height p.height_idx with
  | none => exact ⟨inv1, inv2⟩
  | some hs =>
      dsimp only
      constructor
      · intro k hk
        obtain ⟨h1, h2⟩ := remove_fold_keys hs [] p.orphans k hk
        obtain ⟨h', bs, hbs, hkbs⟩ := inv1 k h1
        have hne : h' ≠ height := by
          intro he
          rw [he, halk] at hbs
          injection hbs with hbs'
          rw [hbs'] at h2
          exact h2 hkbs
        exact ⟨h', bs, by rw [alookup_aremove_ne p.height_idx height h' hne]; exact hbs,
          hkbs⟩
      · exact nodup_keysOf_filter _ _ inv2

theorem foldl_add_inv : ∀ (ops : List (Orphan × Nat)) (p : OrphanBlockPool),
    (∀ k, k ∈ keysOf p.orphans →
      ∃ h bs, alookup h p.height_idx = some bs ∧ k ∈ bs) →
    (keysOf p.height_idx).Nodup →
    p.orphans.length ≤ MAX_ORPHAN_SIZE →
    (∀ k, k ∈ keysOf (ops.foldl (fun p pr => p.add pr.1 pr.2) p).orphans →
      ∃ h bs, alookup h (ops.foldl (fun p pr => p.add pr.1 pr.2) p).height_idx =
        some bs ∧ k ∈ bs) ∧
    (keysOf (ops.foldl (fun p pr => p.add pr.1 pr.2) p).height_idx).Nodup ∧
    (ops.foldl (fun p pr => p.add pr.1 pr.2) p).orphans.length ≤ MAX_ORPHAN_SIZE := by
  intro ops
  induction ops with
  | nil => intro p i1 i2 il; exact ⟨i1, i2, il⟩
  | cons pr rest ih =>
      intro p i1 i2 il
      simp only [List.foldl_cons]
      obtain ⟨j1, j2, j3⟩ := add_preserves_inv p pr.1 pr.2 i1 i2
      exact ih (p.add pr.1 pr.2) j1 j2 (j3 il)

theorem runOps_fold_inv : ∀ (ops : List PoolOp) (p : OrphanBlockPool),
    (∀ k, k ∈ keysOf p.orphans →
      ∃ h bs, alookup h p.height_idx = some bs ∧ k ∈ bs) →
    (keysOf p.height_idx).Nodup →
    (∀ k, k ∈ keysOf (ops.foldl applyOp p).orphans →
      ∃ h bs, alookup h (ops.foldl applyOp p).height_idx = some bs ∧ k ∈ bs) ∧
    (keysOf (ops.foldl applyOp p).height_idx).Nodup := by
  intro ops
  induction ops with
  | nil => intro p i1 i2; exact ⟨i1, i2⟩
  | cons op rest ih =>
      intro p i1 i2
      simp only [List.foldl_cons]
      cases op with
      | add o now =>
          obtain ⟨j1, j2, _⟩ := add_preserves_inv p o now i1 i2
          exact ih _ j1 j2
      | remove_by_height h =>
          obtain ⟨j1, j2⟩ := remove_preserves_inv p h i1 i2
          exact ih _ j1 j2

theorem foldl_preserves_hbb {α : Type} (f : ChainStoreUpdate → α → ChainStoreUpdate)
    (hf : ∀ u a, (f u a).head = u.head ∧ (f u a).base = u.base ∧ (f u a).blocks = u.blocks) :
    ∀ (l : List α) (u : ChainStoreUpdate),
      (l.foldl f u).head = u.head ∧ (l.foldl f u).base = u.base ∧
      (l.foldl f u).blocks = u.blocks := by
  intro l
  induction l with
  | nil => intro u; exact ⟨rfl, rfl, rfl⟩
  | cons a rest ih =>
      intro u
      have h1 := hf u a
      have h2 := ih (f u a)
      simp only [List.foldl_cons]
      exact ⟨h2.1.trans h1.1, h2.2.1.trans h1.2.1, h2.2.2.trans h1.2.2⟩

theorem foldl_saveTR_head (keys : List Hash) (l : List (Nat × Nat)) (u : ChainStoreUpdate) :
    (l.foldl (fun u ir => u.saveTransactionResult (keys.getD ir.1 0) ir.2) u).head = u.head :=
  (foldl_preserves_hbb (fun u ir => u.saveTransactionResult (keys.getD ir.1 0) ir.2)
    (fun _ _ => ⟨rfl, rfl, rfl⟩) l u).1

theorem foldl_saveTR_base (keys : List Hash) (l : List (Nat × Nat)) (u : ChainStoreUpdate) :
    (l.foldl (fun u ir => u.saveTransactionResult (keys.getD ir.1 0) ir.2) u).base = u.base :=
  (foldl_preserves_hbb (fun u ir => u.saveTransactionResult (keys.getD ir.1 0) ir.2)
    (fun _ _ => ⟨rfl, rfl, rfl⟩) l u).2.1

theorem foldl_saveTR_blocks (keys : List Hash) (l : List (Nat × Nat)) (u : ChainStoreUpdate) :
    (l.foldl (fun u ir => u.saveTransactionResult (keys.getD ir.1 0) ir.2) u).blocks = u.blocks :=
  (foldl_preserves_hbb (fun u ir => u.saveTransactionResult (keys.getD ir.1 0) ir.2)
    (fun _ _ => ⟨rfl, rfl, rfl⟩) l u).2.2

theorem foldl_saveOR_head (bh : Hash) (sid : Nat) (l : List (Nat × List Receipt))
    (u : ChainStoreUpdate) :
    (l.foldl (fun u kv => u.saveOutgoingReceipt bh sid kv.2) u).head = u.head :=
  (foldl_preserves_hbb (fun u kv => u.saveOutgoingReceipt bh sid kv.2)
    (fun _ _ => ⟨rfl, rfl, rfl⟩) l u).1

theorem foldl_saveOR_base (bh : Hash) (sid : Nat) (l : List (Nat × List Receipt))
    (u : ChainStoreUpdate) :
    (l.foldl (fun u kv => u.saveOutgoingReceipt bh sid kv.2) u).base = u.base :=
  (foldl_preserves_hbb (fun u kv => u.saveOutgoingReceipt bh sid kv.2)
    (fun _ _ => ⟨rfl, rfl, rfl⟩) l u).2.1

theorem foldl_saveOR_blocks (bh : Hash) (sid : Nat) (l : List (Nat × List Receipt))
    (u : ChainStoreUpdate) :
    (l.foldl (fun u kv => u.saveOutgoingReceipt bh sid kv.2) u).blocks = u.blocks :=
  (foldl_preserves_hbb (fun u kv => u.saveOutgoingReceipt bh sid kv.2)
    (fun _ _ => ⟨rfl, rfl, rfl⟩) l u).2.2

theorem uhh_preserves (u : ChainStoreUpdate) (header : BlockHeader)
    (res : Option Tip) (u' : ChainStoreUpdate)
    (h : ChainUpdate.update_header_head u header = Except.ok (res, u')) :
    u'.head = u.head ∧ u'.base = u.base ∧ u'.blocks = u.blocks := by
  unfold ChainUpdate.update_header_head at h
  split at h
  · cases h
  · split at h
    · cases h; exact ⟨rfl, rfl, rfl⟩
    · cases h; exact ⟨rfl, rfl, rfl⟩

theorem phfb_preserves (rt : RuntimeAdapter) (u : ChainStoreUpdate)
    (header : BlockHeader) (prov : Provenance) (now : Nat) (u' : ChainStoreUpdate)
    (h : ChainUpdate.process_header_for_block rt u header prov now = Except.ok u') :
    u'.head = u.head ∧ u'.base = u.base ∧ u'.blocks = u.blocks := by
  unfold ChainUpdate.process_header_for_block at h
  split at h
  · cases h
  · dsimp only at h
    split at h
    · cases h
    · cases h
      rename_i heq
      exact uhh_preserves (u.saveBlockHeader header) header _ _ heq

theorem sirfb_preserves (rt : RuntimeAdapter) (u : ChainStoreUpdate) (block : Block)
    (u' : ChainStoreUpdate)
    (h : ChainUpdate.save_incoming_receipts_from_block rt u block = Except.ok u') :
    u'.head = u.head ∧ u'.base = u.base ∧ u'.blocks = u.blocks := by
  unfold ChainUpdate.save_incoming_receipts_from_block at h
  split at h
  · cases h
  · cases h
    exact foldl_preserves_hbb
      (fun u (kv : Nat × List Receipt) => u.saveIncomingReceipt block.hash kv.1 kv.2)
      (fun _ _ => ⟨rfl, rfl, rfl⟩) _ u

theorem pc_preserves (rt : RuntimeAdapter) (me : Option AccountId) (block : Block) :
    ∀ (pairs : List (ShardChunkHeader × ShardChunkHeader)) (shard_id : Nat)
      (u u' : ChainStoreUpdate),
      ChainUpdate.process_chunks rt me block shard_id pairs u = Except.ok u' →
      u'.head = u.head ∧ u'.base = u.base ∧ u'.blocks = u.blocks := by
  intro pairs
  induction pairs with
  | nil =>
      intro sid u u' h
      cases h
      exact ⟨rfl, rfl, rfl⟩
  | cons pr rest ih =>
      intro sid u u' h
      unfold ChainUpdate.process_chunks at h
      split at h
      · split at h
        · cases h
        · split at h
          · split at h
            · cases h
            · split at h
              · cases h
              · split at h
                · cases h
                · split at h
                  · cases h
                  · obtain ⟨e1, e2, e3⟩ := ih _ _ _ h
                    refine ⟨?_, ?_, ?_⟩
                    · rw [e1, foldl_saveTR_head, foldl_saveOR_head]; rfl
                    · rw [e2, foldl_saveTR_base, foldl_saveOR_base]; rfl
                    · rw [e3, foldl_saveTR_blocks, foldl_saveOR_blocks]; rfl
          · exact ih _ _ _ h
      · split at h
        · cases h
        · exact ih _ _ _ h

theorem getHead_congr (u u' : ChainStoreUpdate)
    (e1 : u'.head = u.head) (e2 : u'.base = u.base) : u'.getHead = u.getHead := by
  unfold ChainStoreUpdate.getHead
  rw [e1, e2]

/-- Anatomy of a successful `ChainUpdate::process_block`: the staged batch
contains the block (under its hash), and a returned tip is built from the
block's header with total weight strictly above the head the update read. -/
theorem process_block_ok_anatomy (rt : RuntimeAdapter) (o m : OrphanBlockPool)
    (me : Option AccountId) (block : Block) (prov : Provenance) (now : Nat)
    (u : ChainStoreUpdate) (res : Option Tip) (u' : ChainStoreUpdate)
    (h : ChainUpdate.process_block rt o m me block prov now u = Except.ok (res, u')) :
    alookup block.hash u'.blocks = some block ∧
    (∀ head, u.getHead = Except.ok head →
      ∀ tip, res = some tip →
        tip = Tip.from_header block.header ∧
        block.header.total_weight > head.total_weight) := by
  unfold ChainUpdate.process_block at h
  split at h
  · cases h
  · split at h
    · cases h
    · try dsimp only at h
      split at h
      · cases h
      · try dsimp only at h
        split at h
        · cases h
        · split at h
          · cases h
          · rename_i u1 hu1
            try dsimp only at h
            split at h
            · cases h
            · split at h
              · cases h
              · try dsimp only at h
                split at h
                · cases h
                · rename_i u3 hu3
                  try dsimp only at h
                  split at h
                  · cases h
                  · rename_i u4 hu4
                    try dsimp only at h
                    have p1 := phfb_preserves rt u block.header prov now u1 hu1
                    have p3 := sirfb_preserves rt (u1.saveBlock block) block u3 hu3
                    have p4 := pc_preserves rt me block _ 0 u3 u4 hu4
                    have gh : u4.getHead = u.getHead := by
                      have g43 := getHead_congr u3 u4 p4.1 p4.2.1
                      have g32 := getHead_congr (u1.saveBlock block) u3 p3.1 p3.2.1
                      have g21 : (u1.saveBlock block).getHead = u1.getHead :=
                        getHead_congr u1 (u1.saveBlock block) rfl rfl
                      have g10 := getHead_congr u u1 p1.1 p1.2.1
                      exact ((g43.trans g32).trans g21).trans g10
                    have hblocks : u4.blocks = ainsert block.hash block u1.blocks := by
                      rw [p4.2.2, p3.2.2]
                      rfl
                    unfold ChainUpdate.update_head at h
                    split at h
                    · cases h
                    · rename_i head4 hhead4
                      split at h
                      · cases h
                        constructor
                        · rw [show (u4.saveBodyHead (Tip.from_header block.header)).blocks =
                              u4.blocks from rfl, hblocks]
                          exact alookup_ainsert_self block.hash block u1.blocks
                        · intro head hh tip htip
                          have hok : Except.ok (ε := ErrorKind) head4 = Except.ok head := by
                            rw [← hhead4, gh, hh]
                          cases hok
                          cases htip
                          rename_i hw
                          exact ⟨rfl, hw⟩
                      · cases h
                        constructor
                        · rw [hblocks]
                          exact alookup_ainsert_self block.hash block u1.blocks
                        · intro head hh tip htip
                          cases htip

theorem hmix_inj {a b c d : Nat} (h : hmix a b = hmix c d) : a = c ∧ b = d := by
  unfold hmix at h
  exact Nat.pair_eq_pair.mp (Nat.add_right_cancel h)

theorem c5entry_hash_inj (i j : Nat)
    (h : (c5entry i).block.hash = (c5entry j).block.hash) : i = j := by
  simp only [c5entry, mkBlock, Block.hash, BlockHeader.hash] at h
  exact (hmix_inj (hmix_inj h).2).1

theorem c5run1024 : ∀ n, n ≤ 1024 →
    ((List.range n).map (fun i => PoolOp.add (c5entry i) 900)).foldl applyOp
      OrphanBlockPool.new =
    { orphans := (List.range n).map (fun i => ((c5entry i).block.hash, c5entry i))
      height_idx :=
        if n = 0 then []
        else [(0, (List.range n).map (fun i => (c5entry i).block.hash))]
      evicted := 0 } := by
  intro n
  induction n with
  | zero => intro _; rfl
  | succ m ih =>
      intro hm
      have hsteps : ((List.range (m + 1)).map (fun i => PoolOp.add (c5entry i) 900)) =
          ((List.range m).map (fun i => PoolOp.add (c5entry i) 900)) ++
            [PoolOp.add (c5entry m) 900] := by
        rw [List.range_succ, List.map_append]
        rfl
      rw [hsteps, List.foldl_append, ih (Nat.le_of_succ_le hm)]
      simp only [List.foldl_cons, List.foldl_nil, applyOp]
      have hle : ¬ (ainsert (c5entry m).block.hash (c5entry m)
          ((List.range m).map (fun i => ((c5entry i).block.hash, c5entry i)))).length >
          MAX_ORPHAN_SIZE := by
        have h1 := ainsert_length_le
          ((List.range m).map (fun i => ((c5entry i).block.hash, c5entry i)))
          (c5entry m).block.hash (c5entry m)
        simp only [List.length_map, List.length_range] at h1
        exact Nat.not_lt.mpr (h1.trans hm)
      rw [add_eq_of_le _ _ _ hle]
      simp only [OrphanBlockPool.mk.injEq]
      have hfil : ((List.range m).map (fun i => ((c5entry i).block.hash, c5entry i))).filter
          (fun p => p.1 ≠ (c5entry m).block.hash) =
          (List.range m).map (fun i => ((c5entry i).block.hash, c5entry i)) := by
        apply List.filter_eq_self.mpr
        intro p hp
        simp only [List.mem_map] at hp
        obtain ⟨i, hi, he⟩ := hp
        simp only [decide_eq_true_eq]
        rw [← he]
        intro hcontra
        have hij := c5entry_hash_inj i m hcontra
        rw [hij] at hi
        exact Nat.lt_irrefl m (List.mem_range.mp hi)
      refine ⟨?_, ?_, trivial⟩
      · show ainsert (c5entry m).block.hash (c5entry m) _ = _
        unfold ainsert
        rw [hfil]
        have hmapp : (List.range (m + 1)).map
            (fun i => ((c5entry i).block.hash, c5entry i)) =
            (List.range m).map (fun i => ((c5entry i).block.hash, c5entry i)) ++
              [((c5entry m).block.hash, c5entry m)] := by
          rw [List.range_succ, List.map_append]
          rfl
        rw [hmapp]
      · have hbmap : (List.range (m + 1)).map (fun i => (c5entry i).block.hash) =
            (List.range m).map (fun i => (c5entry i).block.hash) ++
              [(c5entry m).block.hash] := by
          rw [List.range_succ, List.map_append]
          rfl
        rw [if_neg (Nat.succ_ne_zero m), hbmap]
        cases m with
        | zero => rfl
        | succ k =>
            rw [if_neg (Nat.succ_ne_zero k)]
            show pushToBucket 0 (c5entry (k + 1)).block.hash
              [(0, (List.range (k + 1)).map (fun i => (c5entry i).block.hash))] = _
            simp only [pushToBucket]
            rw [if_pos trivial]

theorem determine_status_reorg (head : Option Tip) (ph : Tip) (prevHash : Hash)
    (h : Chain.determine_status head ph = BlockStatus.Reorg prevHash) :
    prevHash = ph.last_block_hash ∧
    ∃ t, head = some t ∧ t.prev_block_hash ≠ ph.last_block_hash := by
  cases head with
  | none => simp [Chain.determine_status] at h
  | some t =>
      by_cases hc : t.prev_block_hash = ph.last_block_hash
      · simp [Chain.determine_status, hc] at h
      · simp [Chain.determine_status, hc] at h
        exact ⟨h.symm, t, rfl, hc⟩

/-! ## Claims -/

/-- C1 (amended): when `process_block` fails with any error, no write from the
call is persisted — the store (hence every head) is exactly the store from
before the call, and a block that was absent stays absent. (As literally
stated the claim fails: a failing resubmission of an already stored block
leaves the block's pre-existing record in the store; see the
counterexample.) -/
theorem C1_error_leaves_store_untouched (rt : RuntimeAdapter) (me : Option AccountId)
    (block : Block) (prov : Provenance) (now : Nat) (fuel : Nat) (st : ChainState)
    (e : ErrorKind)
    (h : (Chain.process_block rt me block prov now fuel st).1 = Except.error e) :
    (Chain.process_block rt me block prov now fuel st).2.1.store = st.store ∧
    (alookup block.hash st.store.blocks = none →
      alookup block.hash (Chain.process_block rt me block prov now fuel st).2.1.store.blocks = none) := by
  have hs := process_block_error_state rt me block prov now fuel st e h
  exact ⟨hs, fun hn => by rw [hs]; exact hn⟩

/-- C1 witness: a concrete failing submission (resubmitting `B1` after it was
accepted) leaves the store untouched. -/
theorem C1_error_leaves_store_untouched_witness :
    (Chain.process_block rt1 none blockB1 Provenance.PRODUCED 1000 10 stAfterB1).2.1.store =
      stAfterB1.store :=
  (C1_error_leaves_store_untouched rt1 none blockB1 Provenance.PRODUCED 1000 10
    stAfterB1 (ErrorKind.Unfit "already known in head") rfl).1

/-- C1 counterexample to the claim as stated: resubmitting the stored block
`B1` fails, yet the store does contain a record of `B1` after the call. -/
theorem C1_counterexample :
    (Chain.process_block rt1 none blockB1 Provenance.PRODUCED 1000 10 stAfterB1).1 =
      Except.error (ErrorKind.Unfit "already known in head") ∧
    alookup blockB1.hash
      (Chain.process_block rt1 none blockB1 Provenance.PRODUCED 1000 10 stAfterB1).2.1.store.blocks =
      some blockB1 :=
  ⟨rfl, rfl⟩

/-- C10: a block whose chunk-header count differs from `num_shards()` is
rejected with `IncorrectNumberOfChunkHeaders` before anything else — for an
arbitrary state (even one with no stored head), the state is returned
unchanged (nothing persisted, nothing parked) and no callback fires, both for
`process_block_single` and for `process_block`. -/
theorem C10_incorrect_chunk_count (rt : RuntimeAdapter) (me : Option AccountId)
    (block : Block) (prov : Provenance) (now : Nat) (fuel : Nat) (st : ChainState)
    (h : block.chunks.length ≠ rt.num_shards) :
    Chain.process_block_single rt me block prov now st =
      (Except.error ErrorKind.IncorrectNumberOfChunkHeaders, st, []) ∧
    Chain.process_block rt me block prov now fuel st =
      (Except.error ErrorKind.IncorrectNumberOfChunkHeaders, st, []) := by
  have h1 : Chain.process_block_single rt me block prov now st =
      (Except.error ErrorKind.IncorrectNumberOfChunkHeaders, st, []) := by
    unfold Chain.process_block_single
    rw [if_pos h]
  exact ⟨h1, process_block_of_single_error rt me block prov now fuel st _ st [] h1⟩

/-- C10 witness: a chunk-less block against the one-shard runtime, in a state
whose store has no head at all. -/
theorem C10_incorrect_chunk_count_witness :
    Chain.process_block_single rt1 none blockNoChunks Provenance.NONE 1000
      (mkState (mkStore [] tipH10 tipH10)) =
      (Except.error ErrorKind.IncorrectNumberOfChunkHeaders,
        mkState (mkStore [] tipH10 tipH10), []) :=
  (C10_incorrect_chunk_count rt1 none blockNoChunks Provenance.NONE 1000 10
    (mkState (mkStore [] tipH10 tipH10)) (by decide)).1

/-- C9 (amended): for a stored block that passes the head and orphan-pool
checks, `ChainUpdate::process_block` signals `OldBlock` exactly when
`height > 50 && height < head.height - 50` with the subtraction performed in
wrapping `u64` arithmetic — so when the head's height is below 50 the
subtraction wraps around and any stored block with height above 50 is flagged
`OldBlock`, not `Unfit` as the claim states. -/
theorem C9_old_block_threshold (rt : RuntimeAdapter) (o m : OrphanBlockPool)
    (me : Option AccountId) (block : Block) (prov : Provenance) (now : Nat)
    (u : ChainStoreUpdate) (h : Tip)
    (hh : u.getHead = Except.ok h)
    (hkh : ChainUpdate.check_known_head u block.header = Except.ok ())
    (hko : ChainUpdate.check_known_orphans o m block.header = Except.ok ())
    (hex : u.blockExists block.header.hash = true) :
    ChainUpdate.process_block rt o m me block prov now u =
      Except.error
        (if block.header.height > 50 ∧ block.header.height < u64_sub h.height 50
         then ErrorKind.OldBlock
         else ErrorKind.Unfit "already known in store") := by
  have hks : ChainUpdate.check_known_store u block.header =
      Except.error
        (if block.header.height > 50 ∧ block.header.height < u64_sub h.height 50
         then ErrorKind.OldBlock
         else ErrorKind.Unfit "already known in store") := by
    unfold ChainUpdate.check_known_store
    rw [hex]
    simp only [hh]
    split <;> rfl
  have hck : ChainUpdate.check_known u o m block =
      Except.error
        (if block.header.height > 50 ∧ block.header.height < u64_sub h.height 50
         then ErrorKind.OldBlock
         else ErrorKind.Unfit "already known in store") := by
    unfold ChainUpdate.check_known
    simp only [hkh, hko, hks]
  exact process_block_check_known_error rt o m me block prov now u _ hck

/-- C9 witness: with the head at height 200, the stored block at height 60
satisfies the threshold and is flagged `OldBlock`. -/
theorem C9_old_block_threshold_witness :
    ChainUpdate.process_block rt1 OrphanBlockPool.new OrphanBlockPool.new none
      blockB60 Provenance.PRODUCED 1000 (ChainStoreUpdate.new storeOld200) =
      Except.error ErrorKind.OldBlock :=
  C9_old_block_threshold rt1 OrphanBlockPool.new OrphanBlockPool.new none
    blockB60 Provenance.PRODUCED 1000 (ChainStoreUpdate.new storeOld200) tipH200
    rfl rfl rfl rfl

/-- C9 counterexample to the claim as stated: the head sits at height 10
(at most 50), the stored block at height 60 — per the claim this is an
`Unfit("already known in store")` case, but the wrapping `u64` subtraction
makes the code signal `OldBlock`. -/
theorem C9_counterexample :
    ChainUpdate.process_block rt1 OrphanBlockPool.new OrphanBlockPool.new none
      blockB60 Provenance.PRODUCED 1000 (ChainStoreUpdate.new storeOld) =
      Except.error ErrorKind.OldBlock ∧
    storeOld.head = some tipH10 ∧ tipH10.height ≤ 50 ∧
    blockB60.header.height > 50 :=
  ⟨rfl, rfl, by decide, by decide⟩

/-- C5 (amended): after any sequence of pool operations from the empty pool,
every key of the by-hash map occurs in some bucket of the height index. (The
converse inclusion — the claim's "exactly" — fails after an eviction: the age
filter removes entries from the by-hash map without touching surviving
buckets; see the counterexample.) -/
theorem C5_hash_keys_in_buckets (ops : List PoolOp) (k : Hash)
    (hk : k ∈ keysOf (runOps ops).orphans) :
    ∃ h bs, alookup h (runOps ops).height_idx = some bs ∧ k ∈ bs :=
  (runOps_fold_inv ops OrphanBlockPool.new (fun _ hk0 => by cases hk0)
    List.nodup_nil).1 k hk

/-- C5 witness: a single add, with the inserted hash found in its bucket. -/
theorem C5_hash_keys_in_buckets_witness :
    blockB2.hash ∈ keysOf (runOps [PoolOp.add orphB2 999]).orphans ∧
    ∃ h bs, alookup h (runOps [PoolOp.add orphB2 999]).height_idx = some bs ∧
      blockB2.hash ∈ bs :=
  ⟨by decide, C5_hash_keys_in_buckets [PoolOp.add orphB2 999] blockB2.hash (by decide)⟩

/-- C5 counterexample to the claim as stated: after 1025 adds (1024 fillers at
height 0, one of them stale, then a fresh orphan at height 1 at time 1000),
the stale filler's hash has been dropped from the by-hash map by the age
filter, yet it still occurs in the surviving height-0 bucket — the two
indexes disagree on membership. -/
theorem C5_counterexample :
    alookup (c5entry 0).block.hash (runOps c5ops).orphans = none ∧
    alookup 0 (runOps c5ops).height_idx = some c5bucket0 ∧
    (c5entry 0).block.hash ∈ c5bucket0 := by
  have hsplit : runOps c5ops = c5pool.add c5new 1000 := by
    unfold runOps c5ops
    rw [List.foldl_append, c5run1024 1024 (Nat.le_refl 1024)]
    rfl
  rw [hsplit]
  exact ⟨rfl, rfl, by decide⟩

/-- C6: after any sequence of `add` calls starting from the empty pool, the
by-hash map holds at most `MAX_ORPHAN_SIZE = 1024` entries. -/
theorem C6_pool_capacity (adds : List (Orphan × Nat)) :
    (adds.foldl (fun p pr => p.add pr.1 pr.2) OrphanBlockPool.new).orphans.length ≤
      MAX_ORPHAN_SIZE :=
  (foldl_add_inv adds OrphanBlockPool.new (fun _ hk0 => by cases hk0)
    List.nodup_nil (Nat.zero_le _)).2.2

/-- C7 (amended): when an `add` takes the pool over `MAX_ORPHAN_SIZE`, every
retained entry is younger than `MAX_ORPHAN_AGE_SECS`; but the bucket at the
highest height is always dropped — even when the age expiry alone brought the
pool to or under the cap — because the loop removes a bucket before its first
under-cap check. Further buckets are then dropped from the highest height
downward until the pool is under the cap. -/
theorem C7_eviction_order (p : OrphanBlockPool) (orphan : Orphan) (now : Nat)
    (htrig : (ainsert orphan.block.hash orphan p.orphans).length > MAX_ORPHAN_SIZE) :
    (∀ k o', alookup k (p.add orphan now).orphans = some o' →
      now - o'.added < MAX_ORPHAN_AGE_SECS) ∧
    (∀ top bucket,
      alookup top (pushToBucket orphan.block.header.height orphan.block.hash
        p.height_idx) = some bucket →
      (∀ h, h ∈ keysOf (pushToBucket orphan.block.header.height orphan.block.hash
        p.height_idx) → h ≤ top) →
      ∀ k, k ∈ bucket → alookup k (p.add orphan now).orphans = none) := by
  constructor
  · intro k o' hk
    rw [add_eq_of_over p orphan now htrig] at hk
    have hmem := alookup_some_mem _ k o' hk
    have hmem2 := evictLoop_sub _ _ _ _ _ hmem
    have hpred := List.of_mem_filter hmem2
    simpa using hpred
  · intro top bucket htop hmax k hk
    rw [add_eq_of_over p orphan now htrig]
    have htopmem : top ∈ keysOf (pushToBucket orphan.block.header.height
        orphan.block.hash p.height_idx) := alookup_key_mem _ top bucket htop
    obtain ⟨rest, hrest⟩ := sortDesc_cons_of_max _ top htopmem hmax
    show alookup k (evictLoop _ _ _ []).1 = none
    rw [hrest, evictLoop_cons_some top rest _ _ [] bucket htop]
    split
    · exact foldl_aremove_of_mem bucket _ k hk
    · exact evictLoop_none_stable rest _ _ _ k (foldl_aremove_of_mem bucket _ k hk)

/-- C7 witness: the concrete over-cap add of the fresh height-1 orphan into
`c7pool`; the highest bucket (height 1, holding exactly the new orphan) is
dropped. -/
theorem C7_eviction_order_witness :
    alookup c7new.block.hash (c7pool.add c7new 1000).orphans = none :=
  (C7_eviction_order c7pool c7new 1000 (by decide)).2 1 [c7new.block.hash] rfl
    (by decide) c7new.block.hash (by decide)

/-- C7 counterexample to the claim as stated: the add of `c7new` takes the
pool to 1025; the age expiry alone brings it back to 1023 (at most the cap),
so per the claim no height bucket should be dropped — yet the fresh orphan at
the highest height (1) is evicted. -/
theorem C7_counterexample :
    (ainsert c7new.block.hash c7new c7pool.orphans).length > MAX_ORPHAN_SIZE ∧
    ((ainsert c7new.block.hash c7new c7pool.orphans).filter
      (fun kv => 1000 - kv.2.added < MAX_ORPHAN_AGE_SECS)).length ≤ MAX_ORPHAN_SIZE ∧
    1000 - c7new.added < MAX_ORPHAN_AGE_SECS ∧
    alookup c7new.block.hash (c7pool.add c7new 1000).orphans = none :=
  ⟨by decide, by decide, by decide, rfl⟩

/-- C2: the status classification. `determine_status` agrees with the spec's
wording (`statusSpec`): `Fork` when there is no new head, `Next` when the new
head extends the prior head, otherwise `Reorg` carrying the prior head's last
block hash. And the reorg law: whenever an acceptance callback carries
`Reorg(prev)`, `prev` is the prior head's last block hash, the call returned a
new head tip whose total weight strictly exceeds the prior head's, and whose
previous-block hash differs from the prior head's last block hash. -/
theorem C2_status_classification :
    (∀ (head : Option Tip) (prev_head : Tip),
      Chain.determine_status head prev_head = statusSpec head prev_head) ∧
    (∀ (rt : RuntimeAdapter) (me : Option AccountId) (block : Block)
        (prov : Provenance) (now : Nat) (st : ChainState) (ph : Tip)
        (prevHash : Hash) (res : Except ErrorKind (Option Tip)) (st' : ChainState)
        (evs : List Event) (b : Block) (s : BlockStatus) (p : Provenance),
      st.store.head = some ph →
      Chain.process_block_single rt me block prov now st = (res, st', evs) →
      Event.accepted b s p ∈ evs →
      s = BlockStatus.Reorg prevHash →
      prevHash = ph.last_block_hash ∧
      ∃ tip, res = Except.ok (some tip) ∧ tip.total_weight > ph.total_weight ∧
        tip.prev_block_hash ≠ ph.last_block_hash) := by
  constructor
  · intro head prev_head
    cases head with
    | none => rfl
    | some t =>
        by_cases hc : t.prev_block_hash = prev_head.last_block_hash
        · simp [Chain.determine_status, statusSpec, hc]
        · simp [Chain.determine_status, statusSpec, hc]
  · intro rt me block prov now st ph prevHash res st' evs b s p hhd hrun hmem hs
    have hE : st.store.headE = Except.ok ph := by
      unfold ChainStore.headE
      rw [hhd]
    unfold Chain.process_block_single at hrun
    split at hrun
    · cases hrun
      simp at hmem
    · rw [hE] at hrun
      try dsimp only at hrun
      split at hrun
      · rename_i hdres ures hpres
        cases hrun
        simp only [List.mem_singleton] at hmem
        cases hmem
        obtain ⟨hph, tip, htip, hne⟩ :=
          determine_status_reorg hdres ph prevHash hs
        have hget : (ChainStoreUpdate.new st.store).getHead = Except.ok ph := by
          unfold ChainStoreUpdate.getHead ChainStoreUpdate.new
          exact hE
        obtain ⟨hw1, hw2⟩ :=
          (process_block_ok_anatomy rt st.orphans st.blocks_with_missing_chunks me
            block prov now (ChainStoreUpdate.new st.store) hdres ures hpres).2
            ph hget tip htip
        refine ⟨hph, tip, by rw [htip], ?_, hne⟩
        rw [hw1]
        exact hw2
      · rename_i e heq
        split at hrun <;> cases hrun <;> simp at hmem

/-- C2 witness: the Fork classification at a concrete input, and the reorg
law instantiated on the concrete reorg run (`B2'` displacing `B2`). -/
theorem C2_status_classification_witness :
    Chain.determine_status none tipH10 = statusSpec none tipH10 ∧
    (blockB2.hash = (Tip.from_header blockB2.header).last_block_hash ∧
     ∃ tip, reorgSingle.1 = Except.ok (some tip) ∧
       tip.total_weight > (Tip.from_header blockB2.header).total_weight ∧
       tip.prev_block_hash ≠ (Tip.from_header blockB2.header).last_block_hash) :=
  ⟨C2_status_classification.1 none tipH10,
   C2_status_classification.2 rt1 none blockB2f Provenance.PRODUCED 1000 stReorg
     (Tip.from_header blockB2.header) blockB2.hash reorgSingle.1 reorgSingle.2.1
     reorgSingle.2.2 blockB2f (BlockStatus.Reorg blockB2.hash) Provenance.PRODUCED
     rfl rfl (by decide) rfl⟩

/-- C3: `update_head` returns `Some(Tip::from_header(block.header))` and
stages that tip as the new body head exactly when the block's total weight
strictly exceeds the current block head's; otherwise it returns `None` and
leaves the staged update untouched — while a successful `process_block`
always has the block staged in the batch (forks included). -/
theorem C3_head_update (u : ChainStoreUpdate) (block : Block) (head : Tip)
    (hh : u.getHead = Except.ok head) :
    (block.header.total_weight > head.total_weight →
      ChainUpdate.update_head u block =
        Except.ok (some (Tip.from_header block.header),
          u.saveBodyHead (Tip.from_header block.header))) ∧
    (¬ block.header.total_weight > head.total_weight →
      ChainUpdate.update_head u block = Except.ok (none, u)) ∧
    (∀ (rt : RuntimeAdapter) (o m : OrphanBlockPool) (me : Option AccountId)
        (prov : Provenance) (now : Nat) (res : Option Tip) (u' : ChainStoreUpdate),
      ChainUpdate.process_block rt o m me block prov now u = Except.ok (res, u') →
      alookup block.hash u'.blocks = some block) := by
  refine ⟨?_, ?_, ?_⟩
  · intro hw
    unfold ChainUpdate.update_head
    simp only [hh]
    exact if_pos hw
  · intro hw
    unfold ChainUpdate.update_head
    simp only [hh]
    exact if_neg hw
  · intro rt o m me prov now res u' h
    exact (process_block_ok_anatomy rt o m me block prov now u res u' h).1

/-- C3 witness: on the concrete reorg input, `update_head` stages the new
body head (weight 3 beats 2), and the committed batch of the successful run
holds the block. -/
theorem C3_head_update_witness :
    ChainUpdate.update_head (ChainStoreUpdate.new stReorg.store) blockB2f =
      Except.ok (some (Tip.from_header blockB2f.header),
        (ChainStoreUpdate.new stReorg.store).saveBodyHead
          (Tip.from_header blockB2f.header)) ∧
    alookup blockB2f.hash reorgRes.2.blocks = some blockB2f :=
  ⟨(C3_head_update (ChainStoreUpdate.new stReorg.store) blockB2f
      (Tip.from_header blockB2.header) rfl).1 (by decide),
   (C3_head_update (ChainStoreUpdate.new stReorg.store) blockB2f
      (Tip.from_header blockB2.header) rfl).2.2 rt1 OrphanBlockPool.new
     OrphanBlockPool.new none Provenance.PRODUCED 1000 reorgRes.1 reorgRes.2 rfl⟩

/-- C4 (amended): resubmitting a block `B` that is already persisted is
rejected by the duplicate checks, but the error depends on where `B` sits:
`Unfit("already known in head")` when `B`'s hash is the current head's last or
previous hash (the case in which `B` was accepted as the new head), and
`Unfit("already known in store")` only when it is neither (and `B` is in no
orphan pool and the old-block threshold does not apply). -/
theorem C4_resubmission (rt : RuntimeAdapter) (me : Option AccountId)
    (block : Block) (prov : Provenance) (now : Nat) (fuel : Nat) (st : ChainState)
    (h : Tip)
    (hns : block.chunks.length = rt.num_shards)
    (hhd : st.store.head = some h) :
    (block.hash = h.last_block_hash ∨ block.hash = h.prev_block_hash →
      (Chain.process_block rt me block prov now fuel st).1 =
        Except.error (ErrorKind.Unfit "already known in head")) ∧
    (¬ (block.hash = h.last_block_hash ∨ block.hash = h.prev_block_hash) →
      st.orphans.contains block.hash = false →
      st.blocks_with_missing_chunks.contains block.hash = false →
      (ChainStoreUpdate.new st.store).blockExists block.hash = true →
      ¬ (block.header.height > 50 ∧ block.header.height < u64_sub h.height 50) →
      (Chain.process_block rt me block prov now fuel st).1 =
        Except.error (ErrorKind.Unfit "already known in store")) := by
  have hu : (ChainStoreUpdate.new st.store).getHead = Except.ok h := by
    simp only [ChainStoreUpdate.getHead, ChainStoreUpdate.new, ChainStore.headE, hhd]
  constructor
  · intro hknown
    have hkh : ChainUpdate.check_known_head (ChainStoreUpdate.new st.store) block.header =
        Except.error (ErrorKind.Unfit "already known in head") := by
      unfold ChainUpdate.check_known_head
      simp only [hu]
      exact if_pos hknown
    have hck : ChainUpdate.check_known (ChainStoreUpdate.new st.store)
        st.orphans st.blocks_with_missing_chunks block =
        Except.error (ErrorKind.Unfit "already known in head") := by
      unfold ChainUpdate.check_known
      simp only [hkh]
    have hpb := process_block_check_known_error rt st.orphans st.blocks_with_missing_chunks
      me block prov now (ChainStoreUpdate.new st.store) _ hck
    have hsingle := single_of_unfit rt me block prov now st h "already known in head"
      hns hhd hpb
    rw [process_block_of_single_error rt me block prov now fuel st _ st [] hsingle]
  · intro hnk ho hm hex hold
    have hkh : ChainUpdate.check_known_head (ChainStoreUpdate.new st.store) block.header =
        Except.ok () := by
      unfold ChainUpdate.check_known_head
      simp only [hu]
      exact if_neg hnk
    have hko : ChainUpdate.check_known_orphans st.orphans st.blocks_with_missing_chunks
        block.header = Except.ok () := by
      unfold ChainUpdate.check_known_orphans
      rw [show (block.header.hash : Hash) = block.hash from rfl, ho, hm]
      rfl
    have hks : ChainUpdate.check_known_store (ChainStoreUpdate.new st.store) block.header =
        Except.error (ErrorKind.Unfit "already known in store") := by
      unfold ChainUpdate.check_known_store
      rw [show ((ChainStoreUpdate.new st.store).blockExists block.header.hash : Bool) = true
        from hex]
      simp only [hu]
      rw [if_neg hold]
    have hck : ChainUpdate.check_known (ChainStoreUpdate.new st.store)
        st.orphans st.blocks_with_missing_chunks block =
        Except.error (ErrorKind.Unfit "already known in store") := by
      unfold ChainUpdate.check_known
      simp only [hkh, hko, hks]
    have hpb := process_block_check_known_error rt st.orphans st.blocks_with_missing_chunks
      me block prov now (ChainStoreUpdate.new st.store) _ hck
    have hsingle := single_of_unfit rt me block prov now st h "already known in store"
      hns hhd hpb
    rw [process_block_of_single_error rt me block prov now fuel st _ st [] hsingle]

/-- C4 witness: after `B1` is accepted as the new head, resubmitting it yields
`Unfit("already known in head")` via the head-known branch. -/
theorem C4_resubmission_witness :
    (Chain.process_block rt1 none blockB1 Provenance.PRODUCED 1000 10 stAfterB1).1 =
      Except.error (ErrorKind.Unfit "already known in head") :=
  (C4_resubmission rt1 none blockB1 Provenance.PRODUCED 1000 10 stAfterB1
    (Tip.from_header blockB1.header) rfl rfl).1 (Or.inl rfl)

/-- C4 counterexample to the claim as stated: `B1` is accepted (reaching the
head), and its second submission is rejected with
`Unfit("already known in head")`, not `Unfit("already known in store")`. -/
theorem C4_counterexample :
    (Chain.process_block rt1 none blockB1 Provenance.PRODUCED 1000 10 stGenesis).1 =
      Except.ok (some (Tip.from_header blockB1.header)) ∧
    (Chain.process_block rt1 none blockB1 Provenance.PRODUCED 1000 10 stAfterB1).1 =
      Except.error (ErrorKind.Unfit "already known in head") ∧
    "already known in head" ≠ "already known in store" :=
  ⟨rfl, rfl, by decide⟩

/-- C8 (amended): the orphan cascade's `orphan_accepted` flag is sticky — once
any orphan of the cascade is accepted the flag never clears, so the loop
advances past every height at which the pool still has a bucket, regardless
of whether any orphan popped at that height is accepted; it stops only at a
height with no bucket (or, at the starting height, when nothing has been
accepted yet). -/
theorem C8_cascade_advance (rt : RuntimeAdapter) (me : Option AccountId) (now : Nat) :
    (∀ (bucket : List Orphan) (mnh : Option Tip) (st : ChainState),
      (Chain.process_orphan_bucket rt me now bucket true mnh st).1 = true) ∧
    (∀ (fuel height : Nat) (a : Bool) (mnh : Option Tip) (st : ChainState)
        (pool : OrphanBlockPool),
      st.orphans.remove_by_height height = (none, pool) →
      Chain.check_orphans_loop rt me now (fuel + 1) height a mnh st =
        (mnh, { st with orphans := pool }, [])) ∧
    (∀ (fuel height : Nat) (mnh : Option Tip) (st : ChainState)
        (bucket : List Orphan) (pool : OrphanBlockPool),
      st.orphans.remove_by_height height = (some bucket, pool) →
      Chain.check_orphans_loop rt me now (fuel + 1) height true mnh st =
        (let r := Chain.process_orphan_bucket rt me now bucket true mnh
            { st with orphans := pool }
         let next := Chain.check_orphans_loop rt me now fuel (height + 1) r.1 r.2.1 r.2.2.1
         (next.1, next.2.1, r.2.2.2 ++ next.2.2))) := by
  refine ⟨bucket_flag_sticky rt me now, ?_, ?_⟩
  · intro fuel height a mnh st pool hrm
    conv_lhs => unfold Chain.check_orphans_loop
    simp only [hrm]
  · intro fuel height mnh st bucket pool hrm
    conv_lhs => unfold Chain.check_orphans_loop
    simp only [hrm]
    rw [if_pos (bucket_flag_sticky rt me now bucket mnh { st with orphans := pool })]

/-- C8 witness: the three cascade-step facts at concrete inputs — an empty
bucket keeps the flag set; a state with no bucket at height 5 stops the loop;
a state whose only bucket (height 2) is popped advances to height 3 with the
flag still set. -/
theorem C8_cascade_advance_witness :
    (Chain.process_orphan_bucket rt1 none 1000 [] true none stGenesis).1 = true ∧
    Chain.check_orphans_loop rt1 none 1000 (9 + 1) 5 false none stGenesis =
      (none, { stGenesis with orphans := stGenesis.orphans }, []) ∧
    Chain.check_orphans_loop rt1 none 1000 (9 + 1) 2 true none stOneOrphan =
      (let r := Chain.process_orphan_bucket rt1 none 1000 [orphB2] true none
          { stOneOrphan with orphans :=
              (stOneOrphan.orphans.remove_by_height 2).2 }
       let next := Chain.check_orphans_loop rt1 none 1000 9 (2 + 1) r.1 r.2.1 r.2.2.1
       (next.1, next.2.1, r.2.2.2 ++ next.2.2)) :=
  ⟨(C8_cascade_advance rt1 none 1000).1 [] none stGenesis,
   (C8_cascade_advance rt1 none 1000).2.1 9 5 false none stGenesis stGenesis.orphans rfl,
   (C8_cascade_advance rt1 none 1000).2.2 9 2 none stOneOrphan [orphB2]
     (stOneOrphan.orphans.remove_by_height 2).2 rfl⟩

/-- C8 counterexample to the claim as stated: in the cascade unlocked by `B1`,
height 2 accepts `B2`, every orphan popped at height 3 is declined (no
acceptance event for `X3`), yet the cascade does not stop: the bucket at
height 4 is popped and `Y4` is accepted and stored. -/
theorem C8_counterexample :
    (Chain.process_block rt1 none blockB1 Provenance.PRODUCED 1000 10 stCascade).2.2 =
      [Event.accepted blockB1 BlockStatus.Next Provenance.PRODUCED,
       Event.accepted blockB2 BlockStatus.Next Provenance.PRODUCED,
       Event.accepted blockY4 BlockStatus.Fork Provenance.PRODUCED] ∧
    alookup blockY4.hash
      (Chain.process_block rt1 none blockB1 Provenance.PRODUCED 1000 10 stCascade).2.1.store.blocks =
      some blockY4 ∧
    (Chain.process_block rt1 none blockB1 Provenance.PRODUCED 1000 10 stCascade).2.1.orphans.orphans =
      [] :=
  ⟨rfl, rfl, rfl⟩

end NearChain
